import Mathlib

/-!
# Verification of the FedLab server communication topology

This development shallowly embeds `fedlab_core/server/topology.py`:
the synchronous coordinator `ServerSyncTop` and the asynchronous
coordinator `ServerAsyncTop`.  Pure structure (constructor fields,
per-function send lists) is embedded as Lean functions; the
concurrently scheduled duties of the asynchronous coordinator are
embedded as a small-step transition system over explicit thread
program counters, with theorems quantified over all schedules.
-/

namespace FedLab

/-- Message codes of the wire protocol (`MessageCode` of
`fedlab_core.communicator.processor`; the spec lists exactly
`ParameterUpdate` and `Exit`). -/
inductive MessageCode
  | ParameterUpdate
  | Exit
deriving DecidableEq, Repr

/-- A package handed to the transport for sending: destination rank,
message code and payload. -/
structure SentPackage (Params : Type) where
  dst : Nat
  code : MessageCode
  payload : Params
deriving DecidableEq, Repr

/-- Modelled from the spec: `PackageProcessor.send_model` (module
`fedlab_core.communicator.processor`, not under `src/`) serializes the
given model and performs one blocking send of a package carrying the
serialized parameters, tagged with the given message code
(§4.1 "send_package", §4.2 "sends current GlobalModel tagged
ParameterUpdate"). -/
def send_model {Model Params : Type} (serialize : Model → Params)
    (model : Model) (code : MessageCode) (dst : Nat) : SentPackage Params :=
  { dst := dst, code := code, payload := serialize model }

/-- The synchronous server handler interface consumed by
`ServerSyncTop` (the handler itself is external to the topology layer).
`σ` is the handler's mutable state, which owns the global model.
`selectClients` is indexed by the call number, abstracting the
stateful selection policy; `onReceive` returns the new handler state
together with the new value of `train_flag`. -/
structure SyncHandler (σ Params : Type) where
  clientNumInTotal : Nat
  selectClients : Nat → List Nat
  serializeModel : σ → Params
  trainInner : σ → σ
  onReceive : σ → Nat × MessageCode × Params → σ × Bool

/-- The state set up by `ServerSyncTop.__init__` (topology.py lines
67-79): it stores the handler, address and backend, and hard-codes
`global_round = 1`. -/
structure ServerSyncTopState (σ Params : Type) where
  handler : SyncHandler σ Params
  serverAddress : String × String
  distBackend : String
  globalRound : Nat

/-- Embedding of `ServerSyncTop.__init__`. -/
def ServerSyncTop.init {σ Params : Type} (server_handler : SyncHandler σ Params)
    (server_address : String × String) (dist_backend : String) :
    ServerSyncTopState σ Params :=
  { handler := server_handler
    serverAddress := server_address
    distBackend := dist_backend
    globalRound := 1 }

/-- The asynchronous server handler interface consumed by
`ServerAsyncTop`.  `setModelUpdateTime` embeds the assignment
`self._handler.model_update_time = current_update_time`. -/
structure AsyncHandler (σ Content Params : Type) where
  clientNumInTotal : Nat
  clientNumPerRound : Nat
  selectClients : Nat → List Nat
  serializeModel : σ → Params
  setModelUpdateTime : σ → Nat → σ
  onReceive : σ → Nat → MessageCode → Content → σ

/-- The state set up by `ServerAsyncTop.__init__` (topology.py lines
134-148): it hard-codes `global_activate_epoch = 3`, clears
`has_new_update`, and sets
`total_update_time = global_activate_epoch * client_num_per_round`. -/
structure ServerAsyncTopState (σ Content Params : Type) where
  handler : AsyncHandler σ Content Params
  serverAddress : String × String
  distBackend : String
  globalActivateEpoch : Nat
  hasNewUpdate : Bool
  totalUpdateTime : Nat

/-- Embedding of `ServerAsyncTop.__init__`. -/
def ServerAsyncTop.init {σ Content Params : Type}
    (server_handler : AsyncHandler σ Content Params)
    (server_address : String × String) (dist_backend : String) :
    ServerAsyncTopState σ Content Params :=
  { handler := server_handler
    serverAddress := server_address
    distBackend := dist_backend
    globalActivateEpoch := 3
    hasNewUpdate := false
    totalUpdateTime := 3 * server_handler.clientNumPerRound }

/-- Embedding of `ServerSyncTop.activate_clients` (topology.py lines
106-115): obtain the activation set from the handler's
`select_clients`, then `send_model` the handler's model tagged
`ParameterUpdate` to each selected rank, in order.  `r` is the index
of this `select_clients` call. -/
def ServerSyncTop.activate_clients {σ Params : Type}
    (h : SyncHandler σ Params) (s : σ) (r : Nat) : List (SentPackage Params) :=
  (h.selectClients r).map
    (fun client_idx => send_model h.serializeModel s MessageCode.ParameterUpdate client_idx)

/-- Embedding of `ServerSyncTop.shutdown_clients` (topology.py lines
126-130): for `client_idx` in `range(client_num_in_total)`,
`send_model` the handler's model tagged `Exit` to rank
`client_idx + 1`. -/
def ServerSyncTop.shutdown_clients {σ Params : Type}
    (h : SyncHandler σ Params) (s : σ) : List (SentPackage Params) :=
  (List.range h.clientNumInTotal).map
    (fun client_idx => send_model h.serializeModel s MessageCode.Exit (client_idx + 1))

/-- Modelled from the spec: the handler's `train()` call (module
`fedlab_core.server.handler`, not under `src/`) sets the handler's
round-in-progress flag `train_flag` to `True` (§4.2: `listen_clients`
"sets handler's round in progress flag"; the source comments this as
"turn train_flag to True"). -/
def SyncHandler.train {σ Params : Type} (h : SyncHandler σ Params)
    (sb : σ × Bool) : σ × Bool :=
  (h.trainInner sb.1, true)

/-- One `on_receive` reaction of the synchronous handler, viewed on the
pair (handler state, `train_flag`). -/
def SyncHandler.react {σ Params : Type} (h : SyncHandler σ Params)
    (sb : σ × Bool) (m : Nat × MessageCode × Params) : σ × Bool :=
  h.onReceive sb.1 m

/-- Embedding of the `while self._handler.train_flag:` receive loop of
`ServerSyncTop.listen_clients` (topology.py lines 121-124), run
against the finite stream `msgs` of incoming messages.  Returns the
final (state, flag) pair and the number of messages consumed, or
`none` when the stream is exhausted while the flag is still set (the
code would then block forever on `recv_model`). -/
def ServerSyncTop.listenRecvLoop {σ Params : Type} (h : SyncHandler σ Params) :
    σ × Bool → List (Nat × MessageCode × Params) → Option ((σ × Bool) × Nat)
  | sb, msgs =>
    if sb.2 = true then
      match msgs with
      | [] => none
      | m :: rest =>
        (ServerSyncTop.listenRecvLoop h (h.react sb m) rest).map
          (fun out => (out.1, out.2 + 1))
    else some (sb, 0)

/-- Embedding of `ServerSyncTop.listen_clients` (topology.py lines
117-124): first call the handler's `train()`, then run the receive
loop while `train_flag` is set. -/
def ServerSyncTop.listen_clients {σ Params : Type} (h : SyncHandler σ Params)
    (sb : σ × Bool) (msgs : List (Nat × MessageCode × Params)) :
    Option ((σ × Bool) × Nat) :=
  ServerSyncTop.listenRecvLoop h (h.train sb) msgs

/-- Concrete synchronous handler instance used for witnesses: two
clients, models are natural numbers, serialization is the identity,
and `on_receive` adds the received payload and keeps `train_flag` set
while the accumulated state is below 2. -/
def demoSyncHandler : SyncHandler Nat Nat :=
  { clientNumInTotal := 2
    selectClients := fun _ => [1, 2]
    serializeModel := fun s => s
    trainInner := fun s => s
    onReceive := fun s m => (s + m.2.2, decide (s + m.2.2 < 2)) }

/-- Specification of a successful run of the synchronous receive loop:
the result is the fold of `on_receive` over the consumed prefix, the
flag is cleared at the end, and the flag was still set after every
proper prefix. -/
theorem listenRecvLoop_spec {σ Params : Type} (h : SyncHandler σ Params) :
    ∀ (msgs : List (Nat × MessageCode × Params)) (sb : σ × Bool) (out : (σ × Bool) × Nat),
      ServerSyncTop.listenRecvLoop h sb msgs = some out →
      out.1 = List.foldl h.react sb (msgs.take out.2) ∧
      out.1.2 = false ∧
      ∀ k < out.2, (List.foldl h.react sb (msgs.take k)).2 = true := by
  intro msgs
  induction msgs with
  | nil =>
    intro sb out hrun
    by_cases hflag : sb.2 = true
    · simp [ServerSyncTop.listenRecvLoop, hflag] at hrun
    · simp [ServerSyncTop.listenRecvLoop, hflag] at hrun
      refine ⟨?_, ?_, ?_⟩
      · simp [← hrun]
      · simp [← hrun]
        simpa using hflag
      · intro k hk
        simp [← hrun] at hk
  | cons m rest ih =>
    intro sb out hrun
    by_cases hflag : sb.2 = true
    · simp only [ServerSyncTop.listenRecvLoop, hflag, if_true] at hrun
      rw [Option.map_eq_some'] at hrun
      obtain ⟨out', hout', hmap⟩ := hrun
      obtain ⟨hfold, hend, hpre⟩ := ih (h.react sb m) out' hout'
      subst hmap
      refine ⟨?_, ?_, ?_⟩
      · simpa [List.take_succ_cons] using hfold
      · exact hend
      · intro k hk
        match k with
        | 0 => simpa using hflag
        | k' + 1 =>
          have hk' : k' < out'.2 := by omega
          simpa [List.take_succ_cons] using hpre k' hk'
    · simp only [ServerSyncTop.listenRecvLoop, hflag] at hrun
      simp at hrun
      refine ⟨?_, ?_, ?_⟩
      · simp [← hrun]
      · simp [← hrun]
        simpa using hflag
      · intro k hk
        simp [← hrun] at hk

/-- C9: the round and epoch counts are fixed constants of the
constructors: `ServerSyncTop.__init__` always sets `global_round = 1`
and `ServerAsyncTop.__init__` always sets `global_activate_epoch = 3`,
for every handler, server address and distributed backend. -/
theorem fedlab_C9 {σ σ2 Content Params Params2 : Type}
    (h1 : SyncHandler σ Params) (a1 : String × String) (b1 : String)
    (h2 : AsyncHandler σ2 Content Params2) (a2 : String × String) (b2 : String) :
    (ServerSyncTop.init h1 a1 b1).globalRound = 1 ∧
    (ServerAsyncTop.init h2 a2 b2).globalActivateEpoch = 3 :=
  ⟨rfl, rfl⟩

/-- C10: every `Exit` package sent by the synchronous
`shutdown_clients` carries the serialized current global model as its
payload, through the same `send_model` path as a `ParameterUpdate`
send to the same destination — only the message code differs. -/
theorem fedlab_C10 {σ Params : Type} (h : SyncHandler σ Params) (s : σ)
    (p : SentPackage Params) (hp : p ∈ ServerSyncTop.shutdown_clients h s) :
    p.code = MessageCode.Exit ∧
    p.payload = h.serializeModel s ∧
    p = { send_model h.serializeModel s MessageCode.ParameterUpdate p.dst with
          code := MessageCode.Exit } := by
  obtain ⟨i, _, rfl⟩ := List.mem_map.mp hp
  exact ⟨rfl, rfl, rfl⟩

/-- Witness for C10 at a concrete handler and package. -/
theorem fedlab_C10_witness :
    ({ dst := 1, code := MessageCode.Exit, payload := 7 } : SentPackage Nat) ∈
      ServerSyncTop.shutdown_clients demoSyncHandler 7 ∧
    ({ dst := 1, code := MessageCode.Exit, payload := 7 } : SentPackage Nat).code =
        MessageCode.Exit ∧
    ({ dst := 1, code := MessageCode.Exit, payload := 7 } : SentPackage Nat).payload =
        demoSyncHandler.serializeModel 7 ∧
    ({ dst := 1, code := MessageCode.Exit, payload := 7 } : SentPackage Nat) =
      { send_model demoSyncHandler.serializeModel 7 MessageCode.ParameterUpdate 1 with
        code := MessageCode.Exit } :=
  ⟨by decide, fedlab_C10 demoSyncHandler 7 _ (by decide)⟩

/-- C7: under the handler's selection being duplicate-free (it is a
set of ranks), `activate_clients` sends exactly one package to each
selected rank and none to any other rank, every package is tagged
`ParameterUpdate`, and every payload is the serialized current global
model. -/
theorem fedlab_C7 {σ Params : Type} (h : SyncHandler σ Params) (s : σ) (r : Nat)
    (hnd : (h.selectClients r).Nodup) :
    (∀ dst : Nat,
      (ServerSyncTop.activate_clients h s r).countP (fun p => p.dst == dst) =
        if dst ∈ h.selectClients r then 1 else 0) ∧
    ∀ p ∈ ServerSyncTop.activate_clients h s r,
      p.code = MessageCode.ParameterUpdate ∧ p.payload = h.serializeModel s := by
  constructor
  · intro dst
    unfold ServerSyncTop.activate_clients
    rw [List.countP_map]
    have hcomp :
        ((fun p : SentPackage Params => p.dst == dst) ∘
          (fun client_idx =>
            send_model h.serializeModel s MessageCode.ParameterUpdate client_idx)) =
          fun c : Nat => c == dst := by
      funext c
      rfl
    rw [hcomp, ← List.count_eq_countP]
    by_cases hmem : dst ∈ h.selectClients r
    · rw [if_pos hmem]
      exact List.nodup_iff_count_eq_one.mp hnd dst hmem
    · rw [if_neg hmem]
      exact List.count_eq_zero.mpr hmem
  · intro p hp
    obtain ⟨c, _, rfl⟩ := List.mem_map.mp hp
    exact ⟨rfl, rfl⟩

/-- Witness for C7 at a concrete handler. -/
theorem fedlab_C7_witness :
    (demoSyncHandler.selectClients 0).Nodup ∧
    ((∀ dst : Nat,
      (ServerSyncTop.activate_clients demoSyncHandler 7 0).countP (fun p => p.dst == dst) =
        if dst ∈ demoSyncHandler.selectClients 0 then 1 else 0) ∧
    ∀ p ∈ ServerSyncTop.activate_clients demoSyncHandler 7 0,
      p.code = MessageCode.ParameterUpdate ∧ p.payload = demoSyncHandler.serializeModel 7) :=
  ⟨by decide, fedlab_C7 demoSyncHandler 7 0 (by decide)⟩

/-- C8: `listen_clients` first sets the handler's round-in-progress
flag via `train`, then folds `on_receive` over received messages; when
it returns, the flag is cleared after exactly the consumed prefix and
was still set after every shorter prefix, so the loop terminates
precisely when the handler clears `train_flag`. -/
theorem fedlab_C8 {σ Params : Type} (h : SyncHandler σ Params) (sb : σ × Bool)
    (msgs : List (Nat × MessageCode × Params)) (out : (σ × Bool) × Nat)
    (hrun : ServerSyncTop.listen_clients h sb msgs = some out) :
    (h.train sb).2 = true ∧
    out.1 = List.foldl h.react (h.train sb) (msgs.take out.2) ∧
    out.1.2 = false ∧
    ∀ k < out.2, (List.foldl h.react (h.train sb) (msgs.take k)).2 = true := by
  obtain ⟨hfold, hend, hpre⟩ := listenRecvLoop_spec h msgs (h.train sb) out hrun
  exact ⟨rfl, hfold, hend, hpre⟩

/-- Witness for C8: a concrete run that consumes two messages and
stops because the handler clears the flag. -/
theorem fedlab_C8_witness :
    ServerSyncTop.listen_clients demoSyncHandler (0, false)
        [(1, MessageCode.ParameterUpdate, 1), (2, MessageCode.ParameterUpdate, 1)] =
      some ((2, false), 2) ∧
    ((demoSyncHandler.train (0, false)).2 = true ∧
    ((2, false) : Nat × Bool) =
      List.foldl demoSyncHandler.react (demoSyncHandler.train (0, false))
        (([(1, MessageCode.ParameterUpdate, 1),
           (2, MessageCode.ParameterUpdate, 1)] :
            List (Nat × MessageCode × Nat)).take 2) ∧
    (((2, false) : Nat × Bool)).2 = false ∧
    ∀ k < 2,
      (List.foldl demoSyncHandler.react (demoSyncHandler.train (0, false))
        (([(1, MessageCode.ParameterUpdate, 1),
           (2, MessageCode.ParameterUpdate, 1)] :
            List (Nat × MessageCode × Nat)).take k)).2 = true) := by
  refine ⟨by decide, ?_⟩
  have h := fedlab_C8 demoSyncHandler (0, false)
    [(1, MessageCode.ParameterUpdate, 1), (2, MessageCode.ParameterUpdate, 1)]
    ((2, false), 2) (by decide)
  exact h

/-! ## Synchronous run traces

`ServerSyncTop.run` (topology.py lines 81-104) loops `global_round`
times; each iteration starts an activation thread and a listening
thread and joins both before the next iteration; after the loop it
calls `shutdown_clients`.  A run trace is therefore a concatenation of
round segments — each an arbitrary interleaving of the two duty
traces — followed by the shutdown sends. -/

/-- Events of a synchronous coordinator run, tagged with the round. -/
inductive SyncEv
  | aStart (r : Nat)
  | sendEv (r : Nat) (dst : Nat)
  | lStart (r : Nat)
  | recvEv (r : Nat) (k : Nat)
  | onRecvEv (r : Nat) (k : Nat)
  | exitEv (dst : Nat)
deriving DecidableEq, Repr

/-- `Interleaving a b t`: `t` is a merge of `a` and `b` preserving the
relative order within each (the possible observable schedules of two
concurrently running threads). -/
inductive Interleaving {α : Type} : List α → List α → List α → Prop
  | nil : Interleaving [] [] []
  | left {x : α} {xs ys zs : List α} :
      Interleaving xs ys zs → Interleaving (x :: xs) ys (x :: zs)
  | right {y : α} {xs ys zs : List α} :
      Interleaving xs ys zs → Interleaving xs (y :: ys) (y :: zs)

theorem Interleaving.append {α : Type} : ∀ (a b : List α), Interleaving a b (a ++ b) := by
  intro a
  induction a with
  | nil =>
    intro b
    induction b with
    | nil => exact Interleaving.nil
    | cons y ys ih => exact Interleaving.right ih
  | cons x xs ih =>
    intro b
    exact Interleaving.left (ih b)

theorem Interleaving.countP {α : Type} (p : α → Bool) :
    ∀ {a b t : List α}, Interleaving a b t →
      t.countP p = a.countP p + b.countP p := by
  intro a b t hint
  induction hint with
  | nil => simp
  | left _ ih => simp [List.countP_cons, ih]; omega
  | right _ ih => simp [List.countP_cons, ih]; omega

theorem Interleaving.mem {α : Type} {a b t : List α} (hint : Interleaving a b t)
    {x : α} (hx : x ∈ t) : x ∈ a ∨ x ∈ b := by
  induction hint with
  | nil => simp at hx
  | left _ ih =>
    rcases List.mem_cons.mp hx with rfl | hx'
    · exact Or.inl (List.mem_cons_self _ _)
    · rcases ih hx' with h | h
      · exact Or.inl (List.mem_cons_of_mem _ h)
      · exact Or.inr h
  | right _ ih =>
    rcases List.mem_cons.mp hx with rfl | hx'
    · exact Or.inr (List.mem_cons_self _ _)
    · rcases ih hx' with h | h
      · exact Or.inl h
      · exact Or.inr (List.mem_cons_of_mem _ h)

/-- Trace of the round-`r` activation duty of `ServerSyncTop`
(thread start marker, then the `ParameterUpdate` sends of
`activate_clients` to the selected ranks). -/
def activateDutyTrace (sel : Nat → List Nat) (r : Nat) : List SyncEv :=
  SyncEv.aStart r :: (sel r).map (fun dst => SyncEv.sendEv r dst)

/-- Trace of the round-`r` listening duty of `ServerSyncTop` (thread
start marker, then `n` receive / `on_receive` iterations, `n` being
the number of updates the handler folds before clearing
`train_flag`). -/
def listenDutyTrace (r : Nat) (n : Nat) : List SyncEv :=
  SyncEv.lStart r ::
    (List.range n).flatMap (fun k => [SyncEv.recvEv r k, SyncEv.onRecvEv r k])

/-- Trace of `ServerSyncTop.shutdown_clients`: one `Exit` send to each
rank `1..clientNum`, in order. -/
def shutdownTrace (clientNum : Nat) : List SyncEv :=
  (List.range clientNum).map (fun i => SyncEv.exitEv (i + 1))

/-- Embedding of `ServerSyncTop.run`: `t` is a possible event trace of
the run iff it decomposes into `globalRound` round segments, each an
interleaving of that round's two duty traces (both threads are joined
before the round counter advances), followed by the shutdown sends. -/
def IsSyncRunTrace (globalRound clientNum : Nat) (sel : Nat → List Nat)
    (n : Nat → Nat) (t : List SyncEv) : Prop :=
  ∃ rounds : List (List SyncEv),
    rounds.length = globalRound ∧
    (∀ r (hr : r < rounds.length),
      Interleaving (activateDutyTrace sel r) (listenDutyTrace r (n r))
        (rounds.get ⟨r, hr⟩)) ∧
    t = rounds.flatten ++ shutdownTrace clientNum

def isAStart : SyncEv → Bool
  | .aStart _ => true
  | _ => false

def isLStart : SyncEv → Bool
  | .lStart _ => true
  | _ => false

def isExitEv : SyncEv → Bool
  | .exitEv _ => true
  | _ => false

def isExitTo (dst : Nat) : SyncEv → Bool
  | .exitEv d => d == dst
  | _ => false

/-- The round an event belongs to (`none` for shutdown sends). -/
def roundOf : SyncEv → Option Nat
  | .aStart r => some r
  | .sendEv r _ => some r
  | .lStart r => some r
  | .recvEv r _ => some r
  | .onRecvEv r _ => some r
  | .exitEv _ => none

/-- Round-`r` listening-duty events. -/
def isListenEvOfRound (r : Nat) : SyncEv → Bool
  | .lStart r2 => r2 == r
  | .recvEv r2 _ => r2 == r
  | .onRecvEv r2 _ => r2 == r
  | _ => false

theorem mem_activateDutyTrace {sel : Nat → List Nat} {r : Nat} {x : SyncEv}
    (hx : x ∈ activateDutyTrace sel r) : roundOf x = some r := by
  rcases List.mem_cons.mp hx with rfl | hx'
  · rfl
  · obtain ⟨d, _, rfl⟩ := List.mem_map.mp hx'
    rfl

theorem mem_listenDutyTrace {r n : Nat} {x : SyncEv}
    (hx : x ∈ listenDutyTrace r n) : roundOf x = some r := by
  rcases List.mem_cons.mp hx with rfl | hx'
  · rfl
  · obtain ⟨k, _, hk⟩ := List.mem_flatMap.mp hx'
    rcases List.mem_cons.mp hk with rfl | hk'
    · rfl
    · rcases List.mem_cons.mp hk' with rfl | h
      · rfl
      · simp at h

theorem mem_shutdownTrace {clientNum : Nat} {x : SyncEv}
    (hx : x ∈ shutdownTrace clientNum) : ∃ d, x = SyncEv.exitEv d := by
  obtain ⟨i, _, rfl⟩ := List.mem_map.mp hx
  exact ⟨i + 1, rfl⟩

theorem pairwise_of_forall_mem {α : Type} {R : α → α → Prop} :
    ∀ {l : List α}, (∀ x ∈ l, ∀ y ∈ l, R x y) → l.Pairwise R := by
  intro l
  induction l with
  | nil => intro _; exact List.Pairwise.nil
  | cons a l ih =>
    intro h
    refine List.Pairwise.cons ?_ ?_
    · intro y hy
      exact h a (List.mem_cons_self _ _) y (List.mem_cons_of_mem _ hy)
    · exact ih (fun x hx y hy =>
        h x (List.mem_cons_of_mem _ hx) y (List.mem_cons_of_mem _ hy))

/-- The central ordering invariant of the synchronous run: along any
run trace, round tags are monotone (all round-`r` events precede all
round-`r'` events for `r < r'`). -/
theorem syncRunTrace_round_mono {globalRound clientNum : Nat}
    {sel : Nat → List Nat} {n : Nat → Nat} {t : List SyncEv}
    (ht : IsSyncRunTrace globalRound clientNum sel n t) :
    t.Pairwise (fun e1 e2 => ∀ r1 r2,
      roundOf e1 = some r1 → roundOf e2 = some r2 → r1 ≤ r2) := by
  obtain ⟨rounds, _, hint, rfl⟩ := ht
  have hmem : ∀ (r : Nat) (hr : r < rounds.length) (x : SyncEv),
      x ∈ rounds.get ⟨r, hr⟩ → roundOf x = some r := by
    intro r hr x hx
    rcases (hint r hr).mem hx with h | h
    · exact mem_activateDutyTrace h
    · exact mem_listenDutyTrace h
  rw [List.pairwise_append]
  refine ⟨?_, ?_, ?_⟩
  · rw [List.pairwise_flatten]
    constructor
    · intro l hl
      obtain ⟨r, hr, rfl⟩ := List.mem_iff_getElem.mp hl
      refine pairwise_of_forall_mem ?_
      intro x hx y hy r1 r2 h1 h2
      have hx' := hmem r hr x hx
      have hy' := hmem r hr y hy
      rw [hx'] at h1
      rw [hy'] at h2
      injection h1 with h1
      injection h2 with h2
      omega
    · rw [List.pairwise_iff_getElem]
      intro i j hi hj hij x hx y hy r1 r2 h1 h2
      have hx' := hmem i hi x hx
      have hy' := hmem j hj y hy
      rw [hx'] at h1
      rw [hy'] at h2
      injection h1 with h1
      injection h2 with h2
      omega
  · refine pairwise_of_forall_mem ?_
    intro x hx y _ r1 r2 h1 _
    obtain ⟨d, rfl⟩ := mem_shutdownTrace hx
    simp [roundOf] at h1
  · intro x _ y hy r1 r2 _ h2
    obtain ⟨d, rfl⟩ := mem_shutdownTrace hy
    simp [roundOf] at h2

theorem countP_eq_zero_of_all {α : Type} (p : α → Bool) {l : List α}
    (h : ∀ x ∈ l, p x = false) : l.countP p = 0 :=
  List.countP_eq_zero.mpr (fun a ha => by simp [h a ha])

theorem mem_activateDutyTrace_shape {sel : Nat → List Nat} {r : Nat} {x : SyncEv}
    (hx : x ∈ activateDutyTrace sel r) :
    x = SyncEv.aStart r ∨ ∃ d, x = SyncEv.sendEv r d := by
  rcases List.mem_cons.mp hx with rfl | hx'
  · exact Or.inl rfl
  · obtain ⟨d, _, rfl⟩ := List.mem_map.mp hx'
    exact Or.inr ⟨d, rfl⟩

theorem mem_listenDutyTrace_shape {r n : Nat} {x : SyncEv}
    (hx : x ∈ listenDutyTrace r n) :
    x = SyncEv.lStart r ∨ (∃ k, x = SyncEv.recvEv r k) ∨
      ∃ k, x = SyncEv.onRecvEv r k := by
  rcases List.mem_cons.mp hx with rfl | hx'
  · exact Or.inl rfl
  · obtain ⟨k, _, hk⟩ := List.mem_flatMap.mp hx'
    rcases List.mem_cons.mp hk with rfl | hk'
    · exact Or.inr (Or.inl ⟨k, rfl⟩)
    · rcases List.mem_cons.mp hk' with rfl | h
      · exact Or.inr (Or.inr ⟨k, rfl⟩)
      · simp at h

theorem aTrace_counts (sel : Nat → List Nat) (r : Nat) :
    (activateDutyTrace sel r).countP isAStart = 1 ∧
    (activateDutyTrace sel r).countP isLStart = 0 ∧
    ∀ dst, (activateDutyTrace sel r).countP (isExitTo dst) = 0 := by
  refine ⟨?_, ?_, ?_⟩
  · unfold activateDutyTrace
    rw [List.countP_cons]
    have h0 : ((sel r).map (fun dst => SyncEv.sendEv r dst)).countP isAStart = 0 :=
      countP_eq_zero_of_all _ (by
        intro x hx
        obtain ⟨d, _, rfl⟩ := List.mem_map.mp hx
        rfl)
    simp [h0, isAStart]
  · exact countP_eq_zero_of_all _ (fun x hx => by
      rcases mem_activateDutyTrace_shape hx with rfl | ⟨d, rfl⟩ <;> rfl)
  · intro dst
    exact countP_eq_zero_of_all _ (fun x hx => by
      rcases mem_activateDutyTrace_shape hx with rfl | ⟨d, rfl⟩ <;> rfl)

theorem lTrace_counts (r n : Nat) :
    (listenDutyTrace r n).countP isAStart = 0 ∧
    (listenDutyTrace r n).countP isLStart = 1 ∧
    ∀ dst, (listenDutyTrace r n).countP (isExitTo dst) = 0 := by
  refine ⟨?_, ?_, ?_⟩
  · exact countP_eq_zero_of_all _ (fun x hx => by
      rcases mem_listenDutyTrace_shape hx with rfl | ⟨k, rfl⟩ | ⟨k, rfl⟩ <;> rfl)
  · unfold listenDutyTrace
    rw [List.countP_cons]
    have h0 : ((List.range n).flatMap
        (fun k => [SyncEv.recvEv r k, SyncEv.onRecvEv r k])).countP isLStart = 0 :=
      countP_eq_zero_of_all _ (by
        intro x hx
        obtain ⟨k, _, hk⟩ := List.mem_flatMap.mp hx
        rcases List.mem_cons.mp hk with rfl | hk'
        · rfl
        · rcases List.mem_cons.mp hk' with rfl | h
          · rfl
          · simp at h)
    simp [h0, isLStart]
  · intro dst
    exact countP_eq_zero_of_all _ (fun x hx => by
      rcases mem_listenDutyTrace_shape hx with rfl | ⟨k, rfl⟩ | ⟨k, rfl⟩ <;> rfl)

theorem shutdown_not_round_counts (clientNum : Nat) :
    (shutdownTrace clientNum).countP isAStart = 0 ∧
    (shutdownTrace clientNum).countP isLStart = 0 := by
  constructor
  · exact countP_eq_zero_of_all _ (fun x hx => by
      obtain ⟨d, rfl⟩ := mem_shutdownTrace hx
      rfl)
  · exact countP_eq_zero_of_all _ (fun x hx => by
      obtain ⟨d, rfl⟩ := mem_shutdownTrace hx
      rfl)

theorem shutdown_exit_counts (clientNum dst : Nat) :
    (shutdownTrace clientNum).countP (isExitTo dst) =
      if 1 ≤ dst ∧ dst ≤ clientNum then 1 else 0 := by
  induction clientNum with
  | zero =>
    have h0 : ¬(1 ≤ dst ∧ dst ≤ 0) := by omega
    rw [if_neg h0]
    simp [shutdownTrace]
  | succ m ih =>
    unfold shutdownTrace
    rw [List.range_succ, List.map_append, List.countP_append]
    unfold shutdownTrace at ih
    rw [ih]
    by_cases hd : m + 1 = dst
    · subst hd
      have h1 : ¬(1 ≤ m + 1 ∧ m + 1 ≤ m) := by omega
      have h2 : 1 ≤ m + 1 ∧ m + 1 ≤ m + 1 := by omega
      simp [h1, h2, isExitTo]
    · have h1 : (1 ≤ dst ∧ dst ≤ m) ↔ (1 ≤ dst ∧ dst ≤ m + 1) := by omega
      simp only [List.map_cons, List.map_nil, List.countP_cons, List.countP_nil]
      have h2 : isExitTo dst (SyncEv.exitEv (m + 1)) = false := by
        simp [isExitTo]
        omega
      rw [h2]
      simp only [Bool.false_eq_true, if_false]
      rw [if_congr h1 rfl rfl]
      omega

theorem countP_flatten_eq_sum {α : Type} (p : α → Bool) :
    ∀ L : List (List α), L.flatten.countP p = (L.map (fun l => l.countP p)).sum := by
  intro L
  induction L with
  | nil => simp
  | cons l L ih => simp [List.countP_append, ih]

theorem sum_all_ones : ∀ L : List Nat, (∀ x ∈ L, x = 1) → L.sum = L.length := by
  intro L
  induction L with
  | nil => intro _; rfl
  | cons a L ih =>
    intro h
    have ha : a = 1 := h a (List.mem_cons_self _ _)
    have hL := ih (fun x hx => h x (List.mem_cons_of_mem _ hx))
    rw [List.sum_cons, hL, ha, List.length_cons]
    omega

/-- C2: the synchronous run consists of exactly `globalRound` rounds —
each round starts one activation duty and one listening duty — and the
shutdown sends exactly one `Exit` package to each worker rank
`1..clientNum` and to no other rank, with every `Exit` send occurring
after every round event. -/
theorem fedlab_C2 (globalRound clientNum : Nat) (sel : Nat → List Nat)
    (n : Nat → Nat) (t : List SyncEv)
    (ht : IsSyncRunTrace globalRound clientNum sel n t) :
    t.countP isAStart = globalRound ∧
    t.countP isLStart = globalRound ∧
    (∀ dst, t.countP (isExitTo dst) = if 1 ≤ dst ∧ dst ≤ clientNum then 1 else 0) ∧
    ∀ (i j : Nat) (e e2 : SyncEv), t[i]? = some e → t[j]? = some e2 →
      isExitEv e = true → isExitEv e2 = false → j < i := by
  obtain ⟨rounds, hlen, hint, rfl⟩ := ht
  have hround : ∀ (r : Nat) (hr : r < rounds.length),
      (rounds.get ⟨r, hr⟩).countP isAStart = 1 ∧
      (rounds.get ⟨r, hr⟩).countP isLStart = 1 ∧
      ∀ dst, (rounds.get ⟨r, hr⟩).countP (isExitTo dst) = 0 := by
    intro r hr
    have h := hint r hr
    refine ⟨?_, ?_, ?_⟩
    · rw [h.countP isAStart, (aTrace_counts sel r).1, (lTrace_counts r (n r)).1]
    · rw [h.countP isLStart, (aTrace_counts sel r).2.1, (lTrace_counts r (n r)).2.1]
    · intro dst
      rw [h.countP (isExitTo dst), (aTrace_counts sel r).2.2 dst,
        (lTrace_counts r (n r)).2.2 dst]
  have hbody_not_exit : ∀ x ∈ rounds.flatten, isExitEv x = false := by
    intro x hx
    obtain ⟨l, hl, hxl⟩ := List.mem_flatten.mp hx
    obtain ⟨r, hr, hget⟩ := List.mem_iff_getElem.mp hl
    have hget' : rounds.get ⟨r, hr⟩ = l := by
      simpa [List.get_eq_getElem] using hget
    rw [← hget'] at hxl
    rcases (hint r hr).mem hxl with h | h
    · rcases mem_activateDutyTrace_shape h with rfl | ⟨d, rfl⟩ <;> rfl
    · rcases mem_listenDutyTrace_shape h with rfl | ⟨k, rfl⟩ | ⟨k, rfl⟩ <;> rfl
  refine ⟨?_, ?_, ?_, ?_⟩
  · rw [List.countP_append, countP_flatten_eq_sum]
    have hones : ∀ x ∈ rounds.map (fun l => l.countP isAStart), x = 1 := by
      intro x hx
      obtain ⟨l, hl, rfl⟩ := List.mem_map.mp hx
      obtain ⟨r, hr, hget⟩ := List.mem_iff_getElem.mp hl
      have := (hround r hr).1
      simp only [List.get_eq_getElem] at this
      rw [hget] at this
      exact this
    rw [sum_all_ones _ hones, List.length_map, hlen,
      (shutdown_not_round_counts clientNum).1]
    omega
  · rw [List.countP_append, countP_flatten_eq_sum]
    have hones : ∀ x ∈ rounds.map (fun l => l.countP isLStart), x = 1 := by
      intro x hx
      obtain ⟨l, hl, rfl⟩ := List.mem_map.mp hx
      obtain ⟨r, hr, hget⟩ := List.mem_iff_getElem.mp hl
      have := (hround r hr).2.1
      simp only [List.get_eq_getElem] at this
      rw [hget] at this
      exact this
    rw [sum_all_ones _ hones, List.length_map, hlen,
      (shutdown_not_round_counts clientNum).2]
    omega
  · intro dst
    rw [List.countP_append]
    have hz : (rounds.flatten).countP (isExitTo dst) = 0 :=
      countP_eq_zero_of_all _ (by
        intro x hx
        have := hbody_not_exit x hx
        cases x <;> simp_all [isExitEv, isExitTo])
    rw [hz, shutdown_exit_counts clientNum dst]
    simp
  · intro i j e e2 hi hj he he2
    rw [List.getElem?_append] at hi hj
    by_cases hib : i < rounds.flatten.length
    · rw [if_pos hib] at hi
      obtain ⟨hi', rfl⟩ := List.getElem?_eq_some.mp hi
      have := hbody_not_exit _ (List.getElem_mem hi')
      rw [this] at he
      cases he
    · by_cases hjb : j < rounds.flatten.length
      · omega
      · rw [if_neg hjb] at hj
        obtain ⟨hj', rfl⟩ := List.getElem?_eq_some.mp hj
        obtain ⟨d, hd⟩ := mem_shutdownTrace (List.getElem_mem hj')
        rw [hd] at he2
        cases he2

/-- C3: along any synchronous run trace, an activation send of round
`r+1` strictly follows every listening-duty event of round `r`: both
duties are joined before the round counter advances. -/
theorem fedlab_C3 (globalRound clientNum : Nat) (sel : Nat → List Nat)
    (n : Nat → Nat) (t : List SyncEv)
    (ht : IsSyncRunTrace globalRound clientNum sel n t)
    (r dst i j : Nat) (e e2 : SyncEv)
    (hi : t[i]? = some e) (hj : t[j]? = some e2)
    (he : e = SyncEv.sendEv (r + 1) dst)
    (he2 : isListenEvOfRound r e2 = true) : j < i := by
  subst he
  have hp := syncRunTrace_round_mono ht
  rw [List.pairwise_iff_getElem] at hp
  obtain ⟨hi', hie⟩ := List.getElem?_eq_some.mp hi
  obtain ⟨hj', hje⟩ := List.getElem?_eq_some.mp hj
  have hr2 : roundOf e2 = some r := by
    cases e2 <;> simp [isListenEvOfRound] at he2 <;> simp [roundOf, he2]
  by_contra hcon
  push_neg at hcon
  rcases Nat.eq_or_lt_of_le hcon with heq | hlt
  · subst heq
    have he2' : e2 = SyncEv.sendEv (r + 1) dst := by
      rw [← hje]
      exact hie
    rw [he2'] at hr2
    simp only [roundOf, Option.some.injEq] at hr2
    omega
  · have := hp i j hi' hj' hlt (r + 1) r (by rw [hie]; rfl) (by rw [hje]; exact hr2)
    omega

/-- Concrete selection and per-round update count for sync witnesses. -/
def demoSel : Nat → List Nat := fun _ => [1]

def demoN : Nat → Nat := fun _ => 1

def demoRounds : List (List SyncEv) :=
  [activateDutyTrace demoSel 0 ++ listenDutyTrace 0 (demoN 0),
   activateDutyTrace demoSel 1 ++ listenDutyTrace 1 (demoN 1)]

def demoSyncTrace : List SyncEv := demoRounds.flatten ++ shutdownTrace 1

theorem demoSyncTrace_isRun : IsSyncRunTrace 2 1 demoSel demoN demoSyncTrace := by
  refine ⟨demoRounds, rfl, ?_, rfl⟩
  intro r hr
  have hr2 : r < 2 := by simpa [demoRounds] using hr
  have : r = 0 ∨ r = 1 := by omega
  rcases this with rfl | rfl
  · exact Interleaving.append _ _
  · exact Interleaving.append _ _

/-- Witness for C2 on a concrete two-round trace. -/
theorem fedlab_C2_witness :
    IsSyncRunTrace 2 1 demoSel demoN demoSyncTrace ∧
    (demoSyncTrace.countP isAStart = 2 ∧
     demoSyncTrace.countP isLStart = 2 ∧
     (∀ dst, demoSyncTrace.countP (isExitTo dst) =
        if 1 ≤ dst ∧ dst ≤ 1 then 1 else 0) ∧
     ∀ (i j : Nat) (e e2 : SyncEv), demoSyncTrace[i]? = some e →
       demoSyncTrace[j]? = some e2 →
       isExitEv e = true → isExitEv e2 = false → j < i) :=
  ⟨demoSyncTrace_isRun, fedlab_C2 2 1 demoSel demoN demoSyncTrace demoSyncTrace_isRun⟩

/-- Witness for C3: on the concrete two-round trace, the round-1
activation send (position 6) follows the round-0 listening events,
e.g. the one at position 2. -/
theorem fedlab_C3_witness :
    IsSyncRunTrace 2 1 demoSel demoN demoSyncTrace ∧
    demoSyncTrace[6]? = some (SyncEv.sendEv 1 1) ∧
    demoSyncTrace[2]? = some (SyncEv.lStart 0) ∧
    isListenEvOfRound 0 (SyncEv.lStart 0) = true ∧
    (2 : Nat) < 6 :=
  ⟨demoSyncTrace_isRun, by decide, by decide, by decide,
   fedlab_C3 2 1 demoSel demoN demoSyncTrace demoSyncTrace_isRun 0 1 6 2
     (SyncEv.sendEv 1 1) (SyncEv.lStart 0) (by decide) (by decide) rfl (by decide)⟩

/-! ## Asynchronous coordinator: small-step concurrent semantics

`ServerAsyncTop.run` (topology.py lines 150-167) starts an activation
thread (`activate_clients`, lines 169-193) and a listening thread
(`listen_clients`, lines 195-201), joins only the listening thread,
and then runs `shutdown_clients` (lines 208-216).  Each thread is
embedded as a deterministic step function over an explicit program
counter; a run is the execution of an arbitrary finite schedule of
thread identifiers, so every theorem quantifies over all
interleavings. -/

/-- Observable events of the asynchronous coordinator.  `aSendEv dst
params epoch` is an activation send (package `[model_params,
current_model_epoch]`); `aClearEv e` is `has_new_update = False` at the
end of epoch `e`'s sends; `recvEv k sender code` is the `k`-th
`recv_package`; `stampEv k` is `handler.model_update_time = k`;
`onRecvEv k` is the `k`-th `handler.on_receive` call; `flagEv k` is
`has_new_update = True` after update `k`; `exitEv dst params` is a
shutdown `Exit` send. -/
inductive AEv (Params : Type)
  | aSendEv (dst : Nat) (params : Params) (epoch : Nat)
  | aClearEv (epoch : Nat)
  | recvEv (k : Nat) (sender : Nat) (code : MessageCode)
  | stampEv (k : Nat)
  | onRecvEv (k : Nat)
  | flagEv (k : Nat)
  | exitEv (dst : Nat) (params : Params)
deriving DecidableEq, Repr

/-- Program counter of the activation thread: inside epoch `e`,
either still sending to the remaining selected clients, about to clear
`has_new_update`, or busy-waiting on it; or the whole `for` loop is
finished. -/
inductive APC
  | sending (e : Nat) (rest : List Nat)
  | clearing (e : Nat)
  | waiting (e : Nat)
  | adone
deriving DecidableEq, Repr

/-- Phase of the listening thread inside one loop iteration: about to
`recv_package`, about to stamp `model_update_time`, about to call
`on_receive`, or about to set `has_new_update`. -/
inductive LPhase
  | recvP
  | stampP
  | onRecvP
  | flagP
deriving DecidableEq, Repr

/-- Program counter of the main thread of `run`: blocked in
`listen.join()`, inside the `shutdown_clients` loop, or finished. -/
inductive MPC
  | joinListen
  | shuttingDown (i : Nat)
  | mdone
deriving DecidableEq, Repr

/-- Thread identifiers for the scheduler. -/
inductive Tid
  | act
  | lst
  | mainT
deriving DecidableEq, Repr

/-- A configuration of the asynchronous coordinator: the handler state
(owning the global model), the shared `has_new_update` flag, and the
three thread program counters (`lK` is the listening loop counter
`current_update_time`). -/
structure ACfg (σ : Type) where
  hstate : σ
  hasNewUpdate : Bool
  aPC : APC
  lK : Nat
  lPhase : LPhase
  mPC : MPC
deriving DecidableEq, Repr

/-- Static data of an asynchronous run: the handler, the two bounds
fixed by `__init__`, and the environment `inp` giving the `k`-th
message delivered by `recv_package`. -/
structure AsyncSys (σ Content Params : Type) where
  handler : AsyncHandler σ Content Params
  globalActivateEpoch : Nat
  totalUpdateTime : Nat
  inp : Nat → Nat × MessageCode × Content

/-- The transition system of a `ServerAsyncTop` as configured by
`__init__`, facing the environment `inp`. -/
def ServerAsyncTop.mkSys {σ Content Params : Type}
    (st : ServerAsyncTopState σ Content Params)
    (inp : Nat → Nat × MessageCode × Content) : AsyncSys σ Content Params :=
  { handler := st.handler
    globalActivateEpoch := st.globalActivateEpoch
    totalUpdateTime := st.totalUpdateTime
    inp := inp }

/-- One step of the activation thread (`activate_clients`, lines
169-193).  Model parameters are serialized per send, reading the
current handler state; after the sends of epoch `e` the flag is
cleared and the thread spins until the listening thread sets it. -/
def stepA {σ Content Params : Type} (S : AsyncSys σ Content Params)
    (c : ACfg σ) : ACfg σ × List (AEv Params) :=
  match c.aPC with
  | .sending e (client :: rest) =>
    ({ c with aPC := .sending e rest },
     [.aSendEv client (S.handler.serializeModel c.hstate) e])
  | .sending e [] => ({ c with aPC := .clearing e }, [])
  | .clearing e =>
    ({ c with aPC := .waiting e, hasNewUpdate := false }, [.aClearEv e])
  | .waiting e =>
    if c.hasNewUpdate then
      if e + 1 < S.globalActivateEpoch then
        ({ c with aPC := .sending (e + 1) (S.handler.selectClients (e + 1)) }, [])
      else
        ({ c with aPC := .adone }, [])
    else (c, [])
  | .adone => (c, [])

/-- One step of the listening thread (`listen_clients`, lines
195-201): for `current_update_time` in `range(total_update_time)`:
receive, stamp `model_update_time`, call `on_receive`, set
`has_new_update`. -/
def stepL {σ Content Params : Type} (S : AsyncSys σ Content Params)
    (c : ACfg σ) : ACfg σ × List (AEv Params) :=
  if c.lK < S.totalUpdateTime then
    match c.lPhase with
    | .recvP =>
      ({ c with lPhase := .stampP },
       [.recvEv c.lK (S.inp c.lK).1 (S.inp c.lK).2.1])
    | .stampP =>
      ({ c with hstate := S.handler.setModelUpdateTime c.hstate c.lK,
                lPhase := .onRecvP },
       [.stampEv c.lK])
    | .onRecvP =>
      ({ c with hstate := S.handler.onReceive c.hstate (S.inp c.lK).1
                  (S.inp c.lK).2.1 (S.inp c.lK).2.2,
                lPhase := .flagP },
       [.onRecvEv c.lK])
    | .flagP =>
      ({ c with hasNewUpdate := true, lK := c.lK + 1, lPhase := .recvP },
       [.flagEv c.lK])
  else (c, [])

/-- One step of the main thread of `run` (lines 160-167 and
`shutdown_clients`, lines 208-216): block until the listening loop has
finished (`listen.join()`), then send one `Exit` package carrying the
serialized model to each rank `idx + 1` for `idx` in
`range(client_num_in_total)`. -/
def stepM {σ Content Params : Type} (S : AsyncSys σ Content Params)
    (c : ACfg σ) : ACfg σ × List (AEv Params) :=
  match c.mPC with
  | .joinListen =>
    if c.lK = S.totalUpdateTime then ({ c with mPC := .shuttingDown 0 }, [])
    else (c, [])
  | .shuttingDown i =>
    if i < S.handler.clientNumInTotal then
      ({ c with mPC := .shuttingDown (i + 1) },
       [.exitEv (i + 1) (S.handler.serializeModel c.hstate)])
    else ({ c with mPC := .mdone }, [])
  | .mdone => (c, [])

/-- Dispatch one step of the scheduled thread. -/
def stepT {σ Content Params : Type} (S : AsyncSys σ Content Params)
    (c : ACfg σ) : Tid → ACfg σ × List (AEv Params)
  | .act => stepA S c
  | .lst => stepL S c
  | .mainT => stepM S c

/-- Execute a finite schedule of thread steps, collecting the emitted
events. -/
def exec {σ Content Params : Type} (S : AsyncSys σ Content Params) :
    ACfg σ → List Tid → ACfg σ × List (AEv Params)
  | c, [] => (c, [])
  | c, t :: rest =>
    let p := stepT S c t
    let q := exec S p.1 rest
    (q.1, p.2 ++ q.2)

/-- The initial configuration of `ServerAsyncTop.run` right after both
threads are started: flag clear (`__init__`), activation thread at the
first epoch's sends, listening counter at 0, main thread blocked in
`listen.join()`. -/
def initACfg {σ Content Params : Type} (S : AsyncSys σ Content Params)
    (s0 : σ) : ACfg σ :=
  { hstate := s0
    hasNewUpdate := false
    aPC := if S.globalActivateEpoch = 0 then .adone
           else .sending 0 (S.handler.selectClients 0)
    lK := 0
    lPhase := .recvP
    mPC := .joinListen }

def isRecvEv {Params : Type} : AEv Params → Bool
  | .recvEv _ _ _ => true
  | _ => false

def isExitEvA {Params : Type} : AEv Params → Bool
  | .exitEv _ _ => true
  | _ => false

/-- Number of `recv_package` calls completed or in progress in `c`. -/
def numRecv {σ : Type} (c : ACfg σ) : Nat :=
  c.lK + (if c.lPhase = LPhase.recvP then 0 else 1)

/-- The epoch the activation thread is at (`globalActivateEpoch` once
the `for` loop is done). -/
def epochOfA (E : Nat) : APC → Nat
  | .sending e _ => e
  | .clearing e => e
  | .waiting e => e
  | .adone => E

/-- `tr` contains an `aClearEv e` strictly before some `flagEv`. -/
def ClearThenSet {Params : Type} (tr : List (AEv Params)) (e : Nat) : Prop :=
  ∃ (i m k : Nat), i < m ∧ tr[i]? = some (AEv.aClearEv e) ∧
    tr[m]? = some (AEv.flagEv k)

/-- Progress of the current listening iteration: the events of
iteration `c.lK` emitted so far, in order. -/
def PhaseProg {σ Content Params : Type} (S : AsyncSys σ Content Params)
    (c : ACfg σ) (tr : List (AEv Params)) : Prop :=
  match c.lPhase with
  | .recvP => True
  | .stampP =>
    ∃ i1 : Nat, tr[i1]? = some (AEv.recvEv c.lK (S.inp c.lK).1 (S.inp c.lK).2.1)
  | .onRecvP =>
    ∃ (i1 i2 : Nat), i1 < i2 ∧
      tr[i1]? = some (AEv.recvEv c.lK (S.inp c.lK).1 (S.inp c.lK).2.1) ∧
      tr[i2]? = some (AEv.stampEv c.lK)
  | .flagP =>
    ∃ (i1 i2 i3 : Nat), i1 < i2 ∧ i2 < i3 ∧
      tr[i1]? = some (AEv.recvEv c.lK (S.inp c.lK).1 (S.inp c.lK).2.1) ∧
      tr[i2]? = some (AEv.stampEv c.lK) ∧
      tr[i3]? = some (AEv.onRecvEv c.lK)

def isFlagEv {Params : Type} : AEv Params → Bool
  | .flagEv _ => true
  | _ => false

def isAClearEv {Params : Type} : AEv Params → Bool
  | .aClearEv _ => true
  | _ => false

def isASendEv {Params : Type} : AEv Params → Bool
  | .aSendEv _ _ _ => true
  | _ => false

theorem getElem?_append_l {α : Type} {l u : List α} {i : Nat} {x : α}
    (h : l[i]? = some x) : (l ++ u)[i]? = some x := by
  obtain ⟨hi, _⟩ := List.getElem?_eq_some.mp h
  rw [List.getElem?_append, if_pos hi]
  exact h

theorem getElem?_append_cases {α : Type} {l u : List α} {j : Nat} {x : α}
    (h : (l ++ u)[j]? = some x) :
    (j < l.length ∧ l[j]? = some x) ∨ (l.length ≤ j ∧ u[j - l.length]? = some x) := by
  rw [List.getElem?_append] at h
  by_cases hj : j < l.length
  · rw [if_pos hj] at h
    exact Or.inl ⟨hj, h⟩
  · rw [if_neg hj] at h
    exact Or.inr ⟨Nat.le_of_not_lt hj, h⟩

theorem singleton_getElem? {α : Type} {a x : α} {i : Nat}
    (h : [a][i]? = some x) : i = 0 ∧ x = a := by
  match i with
  | 0 =>
    simp at h
    exact ⟨rfl, h.symm⟩
  | i + 1 => simp at h

/-- Every `flagEv k` in the trace is preceded, in order, by the
iteration-`k` receive, stamp and `on_receive` events: the flag is set
only after the handler has processed that update. -/
def FlagOrder {σ Content Params : Type} (S : AsyncSys σ Content Params)
    (tr : List (AEv Params)) : Prop :=
  ∀ (j k : Nat), tr[j]? = some (AEv.flagEv k) →
    ∃ (i1 i2 i3 : Nat), i1 < i2 ∧ i2 < i3 ∧ i3 < j ∧
      tr[i1]? = some (AEv.recvEv k (S.inp k).1 (S.inp k).2.1) ∧
      tr[i2]? = some (AEv.stampEv k) ∧
      tr[i3]? = some (AEv.onRecvEv k)

/-- Every activation send of epoch `e + 1` is preceded by the epoch-`e`
flag clear and then some `flagEv`, in that order. -/
def SendOrder {Params : Type} (tr : List (AEv Params)) : Prop :=
  ∀ (j dst : Nat) (p : Params) (e : Nat),
    tr[j]? = some (AEv.aSendEv dst p (e + 1)) →
    ∃ (i m k : Nat), i < m ∧ m < j ∧
      tr[i]? = some (AEv.aClearEv e) ∧ tr[m]? = some (AEv.flagEv k)

/-- All `aClearEv` positions in `tr` are strictly below `m`. -/
def AClearBound {Params : Type} (tr : List (AEv Params)) (m : Nat) : Prop :=
  ∀ (i e : Nat), tr[i]? = some (AEv.aClearEv e) → i < m

theorem FlagOrder.append_nonflag {σ Content Params : Type}
    {S : AsyncSys σ Content Params} {tr : List (AEv Params)} {ev : AEv Params}
    (h : FlagOrder S tr) (hev : isFlagEv ev = false) :
    FlagOrder S (tr ++ [ev]) := by
  intro j k hj
  rcases getElem?_append_cases hj with ⟨_, hold⟩ | ⟨_, hnew⟩
  · obtain ⟨i1, i2, i3, h12, h23, h3j, h1, h2, h3⟩ := h j k hold
    exact ⟨i1, i2, i3, h12, h23, h3j,
      getElem?_append_l h1, getElem?_append_l h2, getElem?_append_l h3⟩
  · obtain ⟨_, rfl⟩ := singleton_getElem? hnew
    simp [isFlagEv] at hev

theorem FlagOrder.append_flag {σ Content Params : Type}
    {S : AsyncSys σ Content Params} {tr : List (AEv Params)} {k' : Nat}
    (h : FlagOrder S tr)
    (hprog : ∃ (i1 i2 i3 : Nat), i1 < i2 ∧ i2 < i3 ∧
      tr[i1]? = some (AEv.recvEv k' (S.inp k').1 (S.inp k').2.1) ∧
      tr[i2]? = some (AEv.stampEv k') ∧
      tr[i3]? = some (AEv.onRecvEv k')) :
    FlagOrder S (tr ++ [AEv.flagEv k']) := by
  intro j k hj
  rcases getElem?_append_cases hj with ⟨_, hold⟩ | ⟨hjl, hnew⟩
  · obtain ⟨i1, i2, i3, h12, h23, h3j, h1, h2, h3⟩ := h j k hold
    exact ⟨i1, i2, i3, h12, h23, h3j,
      getElem?_append_l h1, getElem?_append_l h2, getElem?_append_l h3⟩
  · obtain ⟨hj0, hevk⟩ := singleton_getElem? hnew
    have hjlen : j = tr.length := by omega
    have hk : k' = k := by
      injection hevk.symm
    subst hk
    obtain ⟨i1, i2, i3, h12, h23, h1, h2, h3⟩ := hprog
    have hi3 : i3 < tr.length := (List.getElem?_eq_some.mp h3).1
    exact ⟨i1, i2, i3, h12, h23, by omega,
      getElem?_append_l h1, getElem?_append_l h2, getElem?_append_l h3⟩

theorem SendOrder.append_nonsend {Params : Type} {tr : List (AEv Params)}
    {ev : AEv Params} (h : SendOrder tr) (hev : isASendEv ev = false) :
    SendOrder (tr ++ [ev]) := by
  intro j dst p e hj
  rcases getElem?_append_cases hj with ⟨_, hold⟩ | ⟨_, hnew⟩
  · obtain ⟨i, m, k, him, hmj, hi, hm⟩ := h j dst p e hold
    exact ⟨i, m, k, him, hmj, getElem?_append_l hi, getElem?_append_l hm⟩
  · obtain ⟨_, rfl⟩ := singleton_getElem? hnew
    simp [isASendEv] at hev

theorem SendOrder.append_send {Params : Type} {tr : List (AEv Params)}
    {dst' : Nat} {p' : Params} {e' : Nat} (h : SendOrder tr)
    (hcs : ∀ e : Nat, e + 1 = e' → ClearThenSet tr e) :
    SendOrder (tr ++ [AEv.aSendEv dst' p' e']) := by
  intro j dst p e hj
  rcases getElem?_append_cases hj with ⟨_, hold⟩ | ⟨hjl, hnew⟩
  · obtain ⟨i, m, k, him, hmj, hi, hm⟩ := h j dst p e hold
    exact ⟨i, m, k, him, hmj, getElem?_append_l hi, getElem?_append_l hm⟩
  · obtain ⟨hj0, hevk⟩ := singleton_getElem? hnew
    have he' : e + 1 = e' := by
      injection hevk.symm with _ _ h3
      omega
    obtain ⟨i, m, k, him, hi, hm⟩ := hcs e he'
    have hm' : m < tr.length := (List.getElem?_eq_some.mp hm).1
    exact ⟨i, m, k, him, by omega,
      getElem?_append_l hi, getElem?_append_l hm⟩

theorem clearThenSet_append {Params : Type} {tr u : List (AEv Params)} {e : Nat}
    (h : ClearThenSet tr e) : ClearThenSet (tr ++ u) e := by
  obtain ⟨i, m, k, him, hi, hm⟩ := h
  exact ⟨i, m, k, him, getElem?_append_l hi, getElem?_append_l hm⟩

/-- The global invariant of asynchronous executions: it relates a
reachable configuration to the trace emitted so far, and contains each
claim's trace property together with the bookkeeping needed to push it
through every thread step. -/
structure AInv {σ Content Params : Type} (S : AsyncSys σ Content Params)
    (c : ACfg σ) (tr : List (AEv Params)) : Prop where
  lK_le : c.lK ≤ S.totalUpdateTime
  lK_top : c.lK = S.totalUpdateTime → c.lPhase = LPhase.recvP
  recv_count : tr.countP isRecvEv = numRecv c
  flag_order : FlagOrder S tr
  phase_prog : PhaseProg S c tr
  flag_impl : c.hasNewUpdate = true →
    ∃ (m k : Nat), tr[m]? = some (AEv.flagEv k) ∧ AClearBound tr m
  clear_mem : ∀ e : Nat, c.aPC = APC.waiting e →
    ∃ i : Nat, tr[i]? = some (AEv.aClearEv e)
  epoch_order : ∀ e : Nat, e + 1 ≤ epochOfA S.globalActivateEpoch c.aPC →
    ClearThenSet tr e
  send_order : SendOrder tr
  m_join : c.mPC = MPC.joinListen → tr.filter isExitEvA = []
  m_shut : ∀ i : Nat, c.mPC = MPC.shuttingDown i →
    i ≤ S.handler.clientNumInTotal ∧ c.lK = S.totalUpdateTime ∧
    tr.filter isExitEvA = (List.range i).map
      (fun x => AEv.exitEv (x + 1) (S.handler.serializeModel c.hstate))
  m_done : c.mPC = MPC.mdone →
    c.lK = S.totalUpdateTime ∧
    tr.filter isExitEvA = (List.range S.handler.clientNumInTotal).map
      (fun x => AEv.exitEv (x + 1) (S.handler.serializeModel c.hstate))
  exit_after : ∀ (j dst : Nat) (p : Params),
    tr[j]? = some (AEv.exitEv dst p) →
    (tr.take j).countP isRecvEv = S.totalUpdateTime ∧
    p = S.handler.serializeModel c.hstate

/-- The invariant holds initially (empty trace, `initACfg`). -/
theorem ainv_init {σ Content Params : Type} (S : AsyncSys σ Content Params)
    (s0 : σ) : AInv S (initACfg S s0) [] := by
  refine
    { lK_le := ?_
      lK_top := ?_
      recv_count := ?_
      flag_order := ?_
      phase_prog := ?_
      flag_impl := ?_
      clear_mem := ?_
      epoch_order := ?_
      send_order := ?_
      m_join := ?_
      m_shut := ?_
      m_done := ?_
      exit_after := ?_ }
  · exact Nat.zero_le _
  · intro _
    rfl
  · rfl
  · intro j k hj
    simp at hj
  · exact trivial
  · intro hflag
    simp [initACfg] at hflag
  · intro e he
    simp only [initACfg] at he
    by_cases hE : S.globalActivateEpoch = 0 <;> simp [hE] at he
  · intro e he
    simp only [initACfg] at he
    by_cases hE : S.globalActivateEpoch = 0 <;>
      simp [hE, epochOfA] at he
  · intro j dst p e hj
    simp at hj
  · intro _
    rfl
  · intro i hi
    simp [initACfg] at hi
  · intro hd
    simp [initACfg] at hd
  · intro j dst p hj
    simp at hj

theorem phaseProg_append {σ Content Params : Type} {S : AsyncSys σ Content Params}
    {c : ACfg σ} {tr u : List (AEv Params)}
    (h : PhaseProg S c tr) : PhaseProg S c (tr ++ u) := by
  cases hph : c.lPhase
  · simp only [PhaseProg, hph]
  · simp only [PhaseProg, hph] at h ⊢
    obtain ⟨i1, h1⟩ := h
    exact ⟨i1, getElem?_append_l h1⟩
  · simp only [PhaseProg, hph] at h ⊢
    obtain ⟨i1, i2, h12, h1, h2⟩ := h
    exact ⟨i1, i2, h12, getElem?_append_l h1, getElem?_append_l h2⟩
  · simp only [PhaseProg, hph] at h ⊢
    obtain ⟨i1, i2, i3, h12, h23, h1, h2, h3⟩ := h
    exact ⟨i1, i2, i3, h12, h23, getElem?_append_l h1, getElem?_append_l h2,
      getElem?_append_l h3⟩

theorem flagWitness_append {Params : Type} {tr : List (AEv Params)} {ev : AEv Params}
    (h : ∃ (m k : Nat), tr[m]? = some (AEv.flagEv k) ∧ AClearBound tr m)
    (hev : isAClearEv ev = false) :
    ∃ (m k : Nat), (tr ++ [ev])[m]? = some (AEv.flagEv k) ∧
      AClearBound (tr ++ [ev]) m := by
  obtain ⟨m, k, hm, hb⟩ := h
  refine ⟨m, k, getElem?_append_l hm, ?_⟩
  intro i e hi
  rcases getElem?_append_cases hi with ⟨_, hold⟩ | ⟨_, hnew⟩
  · exact hb i e hold
  · obtain ⟨_, rfl⟩ := singleton_getElem? hnew
    simp [isAClearEv] at hev

theorem no_exit_of_lt {σ Content Params : Type} {S : AsyncSys σ Content Params}
    {c : ACfg σ} {tr : List (AEv Params)} (h : AInv S c tr)
    (hlt : c.lK < S.totalUpdateTime) {j dst : Nat} {p : Params}
    (hj : tr[j]? = some (AEv.exitEv dst p)) : False := by
  have hmem : AEv.exitEv dst p ∈ tr := by
    obtain ⟨hjl, hje⟩ := List.getElem?_eq_some.mp hj
    rw [← hje]
    exact List.getElem_mem hjl
  have hfil : AEv.exitEv dst p ∈ tr.filter isExitEvA :=
    List.mem_filter.mpr ⟨hmem, rfl⟩
  rcases hm : c.mPC with _ | i | _
  · rw [h.m_join hm] at hfil
    simp at hfil
  · have := (h.m_shut i hm).2.1
    omega
  · have := (h.m_done hm).1
    omega

/-- One activation-thread step preserves the invariant. -/
theorem stepA_inv {σ Content Params : Type} (S : AsyncSys σ Content Params)
    {c : ACfg σ} {tr : List (AEv Params)} (h : AInv S c tr) :
    AInv S (stepA S c).1 (tr ++ (stepA S c).2) := by
  cases hpc : c.aPC with
  | sending e rest =>
    cases rest with
    | cons client rest =>
      have hstep : stepA S c =
          ({ c with aPC := APC.sending e rest },
           [AEv.aSendEv client (S.handler.serializeModel c.hstate) e]) := by
        simp [stepA, hpc]
      rw [hstep]
      refine
        { lK_le := h.lK_le
          lK_top := h.lK_top
          recv_count := ?_
          flag_order := h.flag_order.append_nonflag rfl
          phase_prog := phaseProg_append h.phase_prog
          flag_impl := fun hf => flagWitness_append (h.flag_impl hf) rfl
          clear_mem := ?_
          epoch_order := ?_
          send_order := h.send_order.append_send ?_
          m_join := ?_
          m_shut := ?_
          m_done := ?_
          exit_after := ?_ }
      · rw [List.countP_append]
        simpa [isRecvEv, numRecv] using h.recv_count
      · intro e' he'
        exact APC.noConfusion he'
      · intro e' he'
        simp only [epochOfA] at he'
        refine clearThenSet_append (h.epoch_order e' ?_)
        rw [hpc]
        simp only [epochOfA]
        omega
      · intro e0 he0
        refine h.epoch_order e0 ?_
        rw [hpc]
        simp only [epochOfA]
        omega
      · intro hm
        rw [List.filter_append, h.m_join hm]
        rfl
      · intro i hi
        obtain ⟨h1, h2, h3⟩ := h.m_shut i hi
        refine ⟨h1, h2, ?_⟩
        rw [List.filter_append, h3]
        simp [isExitEvA]
      · intro hd
        obtain ⟨h1, h2⟩ := h.m_done hd
        refine ⟨h1, ?_⟩
        rw [List.filter_append, h2]
        simp [isExitEvA]
      · intro j dst p hj
        rcases getElem?_append_cases hj with ⟨hjl, hold⟩ | ⟨_, hnew⟩
        · have := h.exit_after j dst p hold
          rwa [List.take_append_of_le_length (Nat.le_of_lt hjl)]
        · obtain ⟨_, hx⟩ := singleton_getElem? hnew
          exact AEv.noConfusion hx
    | nil =>
      have hstep : stepA S c = ({ c with aPC := APC.clearing e }, []) := by
        simp [stepA, hpc]
      rw [hstep, List.append_nil]
      refine
        { lK_le := h.lK_le
          lK_top := h.lK_top
          recv_count := h.recv_count
          flag_order := h.flag_order
          phase_prog := h.phase_prog
          flag_impl := h.flag_impl
          clear_mem := ?_
          epoch_order := ?_
          send_order := h.send_order
          m_join := h.m_join
          m_shut := h.m_shut
          m_done := h.m_done
          exit_after := h.exit_after }
      · intro e' he'
        exact APC.noConfusion he'
      · intro e' he'
        simp only [epochOfA] at he'
        refine h.epoch_order e' ?_
        rw [hpc]
        simp only [epochOfA]
        omega
  | clearing e =>
    have hstep : stepA S c =
        ({ c with aPC := APC.waiting e, hasNewUpdate := false },
         [AEv.aClearEv e]) := by
      simp [stepA, hpc]
    rw [hstep]
    refine
      { lK_le := h.lK_le
        lK_top := h.lK_top
        recv_count := ?_
        flag_order := h.flag_order.append_nonflag rfl
        phase_prog := phaseProg_append h.phase_prog
        flag_impl := ?_
        clear_mem := ?_
        epoch_order := ?_
        send_order := h.send_order.append_nonsend rfl
        m_join := ?_
        m_shut := ?_
        m_done := ?_
        exit_after := ?_ }
    · rw [List.countP_append]
      simpa [isRecvEv, numRecv] using h.recv_count
    · intro hf
      exact Bool.noConfusion hf
    · intro e' he'
      have he2 : e = e' := by
        injection he'
      subst he2
      exact ⟨tr.length, by rw [List.getElem?_concat_length]⟩
    · intro e' he'
      simp only [epochOfA] at he'
      refine clearThenSet_append (h.epoch_order e' ?_)
      rw [hpc]
      simp only [epochOfA]
      omega
    · intro hm
      rw [List.filter_append, h.m_join hm]
      rfl
    · intro i hi
      obtain ⟨h1, h2, h3⟩ := h.m_shut i hi
      refine ⟨h1, h2, ?_⟩
      rw [List.filter_append, h3]
      simp [isExitEvA]
    · intro hd
      obtain ⟨h1, h2⟩ := h.m_done hd
      refine ⟨h1, ?_⟩
      rw [List.filter_append, h2]
      simp [isExitEvA]
    · intro j dst p hj
      rcases getElem?_append_cases hj with ⟨hjl, hold⟩ | ⟨_, hnew⟩
      · have := h.exit_after j dst p hold
        rwa [List.take_append_of_le_length (Nat.le_of_lt hjl)]
      · obtain ⟨_, hx⟩ := singleton_getElem? hnew
        exact AEv.noConfusion hx
  | waiting e =>
    by_cases hflag : c.hasNewUpdate = true
    · have hcs : ClearThenSet tr e := by
        obtain ⟨i, hi⟩ := h.clear_mem e hpc
        obtain ⟨m, k, hm, hb⟩ := h.flag_impl hflag
        exact ⟨i, m, k, hb i e hi, hi, hm⟩
      have hepoch : ∀ e' : Nat, e' + 1 ≤ e → ClearThenSet tr e' := by
        intro e' he'
        refine h.epoch_order e' ?_
        rw [hpc]
        simp only [epochOfA]
        omega
      by_cases hE : e + 1 < S.globalActivateEpoch
      · have hstep : stepA S c =
            ({ c with aPC := APC.sending (e + 1) (S.handler.selectClients (e + 1)) }, []) := by
          simp [stepA, hpc, hflag, hE]
        rw [hstep, List.append_nil]
        refine
          { lK_le := h.lK_le
            lK_top := h.lK_top
            recv_count := h.recv_count
            flag_order := h.flag_order
            phase_prog := h.phase_prog
            flag_impl := h.flag_impl
            clear_mem := ?_
            epoch_order := ?_
            send_order := h.send_order
            m_join := h.m_join
            m_shut := h.m_shut
            m_done := h.m_done
            exit_after := h.exit_after }
        · intro e' he'
          exact APC.noConfusion he'
        · intro e' he'
          simp only [epochOfA] at he'
          rcases Nat.lt_or_ge e' e with hlt | hge
          · exact hepoch e' (by omega)
          · have : e' = e := by omega
            subst this
            exact hcs
      · have hstep : stepA S c = ({ c with aPC := APC.adone }, []) := by
          simp [stepA, hpc, hflag, hE]
        rw [hstep, List.append_nil]
        refine
          { lK_le := h.lK_le
            lK_top := h.lK_top
            recv_count := h.recv_count
            flag_order := h.flag_order
            phase_prog := h.phase_prog
            flag_impl := h.flag_impl
            clear_mem := ?_
            epoch_order := ?_
            send_order := h.send_order
            m_join := h.m_join
            m_shut := h.m_shut
            m_done := h.m_done
            exit_after := h.exit_after }
        · intro e' he'
          exact APC.noConfusion he'
        · intro e' he'
          simp only [epochOfA] at he'
          rcases Nat.lt_or_ge e' e with hlt | hge
          · exact hepoch e' (by omega)
          · have : e' = e := by omega
            subst this
            exact hcs
    · have hflag' : c.hasNewUpdate = false := by
        simpa using hflag
      have hstep : stepA S c = (c, []) := by
        simp [stepA, hpc, hflag']
      rw [hstep, List.append_nil]
      exact h
  | adone =>
    have hstep : stepA S c = (c, []) := by
      simp [stepA, hpc]
    rw [hstep, List.append_nil]
    exact h

/-- One listening-thread step preserves the invariant. -/
theorem stepL_inv {σ Content Params : Type} (S : AsyncSys σ Content Params)
    {c : ACfg σ} {tr : List (AEv Params)} (h : AInv S c tr) :
    AInv S (stepL S c).1 (tr ++ (stepL S c).2) := by
  by_cases hlt : c.lK < S.totalUpdateTime
  · cases hph : c.lPhase with
    | recvP =>
      have hstep : stepL S c =
          ({ c with lPhase := LPhase.stampP },
           [AEv.recvEv c.lK (S.inp c.lK).1 (S.inp c.lK).2.1]) := by
        simp [stepL, hlt, hph]
      rw [hstep]
      refine
        { lK_le := h.lK_le
          lK_top := fun htop => absurd htop (Nat.ne_of_lt hlt)
          recv_count := ?_
          flag_order := h.flag_order.append_nonflag rfl
          phase_prog := ⟨tr.length, List.getElem?_concat_length _ _⟩
          flag_impl := fun hf => flagWitness_append (h.flag_impl hf) rfl
          clear_mem := ?_
          epoch_order := fun e he => clearThenSet_append (h.epoch_order e he)
          send_order := h.send_order.append_nonsend rfl
          m_join := ?_
          m_shut := ?_
          m_done := ?_
          exit_after := ?_ }
      · rw [List.countP_append]
        have hrc : tr.countP isRecvEv = c.lK := by
          simpa [numRecv, hph] using h.recv_count
        simp [isRecvEv, numRecv, hrc]
      · intro e he
        obtain ⟨i, hi⟩ := h.clear_mem e he
        exact ⟨i, getElem?_append_l hi⟩
      · intro hm
        rw [List.filter_append, h.m_join hm]
        rfl
      · intro i hi
        exact absurd (h.m_shut i hi).2.1 (Nat.ne_of_lt hlt)
      · intro hd
        exact absurd (h.m_done hd).1 (Nat.ne_of_lt hlt)
      · intro j dst p hj
        rcases getElem?_append_cases hj with ⟨_, hold⟩ | ⟨_, hnew⟩
        · exact (no_exit_of_lt h hlt hold).elim
        · obtain ⟨_, hx⟩ := singleton_getElem? hnew
          exact AEv.noConfusion hx
    | stampP =>
      have hstep : stepL S c =
          ({ c with hstate := S.handler.setModelUpdateTime c.hstate c.lK,
                    lPhase := LPhase.onRecvP },
           [AEv.stampEv c.lK]) := by
        simp [stepL, hlt, hph]
      rw [hstep]
      have hpp := h.phase_prog
      simp only [PhaseProg, hph] at hpp
      obtain ⟨i1, h1⟩ := hpp
      have hi1 : i1 < tr.length := (List.getElem?_eq_some.mp h1).1
      refine
        { lK_le := h.lK_le
          lK_top := fun htop => absurd htop (Nat.ne_of_lt hlt)
          recv_count := ?_
          flag_order := h.flag_order.append_nonflag rfl
          phase_prog :=
            ⟨i1, tr.length, hi1, getElem?_append_l h1,
              List.getElem?_concat_length _ _⟩
          flag_impl := fun hf => flagWitness_append (h.flag_impl hf) rfl
          clear_mem := ?_
          epoch_order := fun e he => clearThenSet_append (h.epoch_order e he)
          send_order := h.send_order.append_nonsend rfl
          m_join := ?_
          m_shut := ?_
          m_done := ?_
          exit_after := ?_ }
      · rw [List.countP_append]
        have hrc : tr.countP isRecvEv = c.lK + 1 := by
          simpa [numRecv, hph] using h.recv_count
        simp [isRecvEv, numRecv, hrc]
      · intro e he
        obtain ⟨i, hi⟩ := h.clear_mem e he
        exact ⟨i, getElem?_append_l hi⟩
      · intro hm
        rw [List.filter_append, h.m_join hm]
        rfl
      · intro i hi
        exact absurd (h.m_shut i hi).2.1 (Nat.ne_of_lt hlt)
      · intro hd
        exact absurd (h.m_done hd).1 (Nat.ne_of_lt hlt)
      · intro j dst p hj
        rcases getElem?_append_cases hj with ⟨_, hold⟩ | ⟨_, hnew⟩
        · exact (no_exit_of_lt h hlt hold).elim
        · obtain ⟨_, hx⟩ := singleton_getElem? hnew
          exact AEv.noConfusion hx
    | onRecvP =>
      have hstep : stepL S c =
          ({ c with hstate := S.handler.onReceive c.hstate (S.inp c.lK).1
                      (S.inp c.lK).2.1 (S.inp c.lK).2.2,
                    lPhase := LPhase.flagP },
           [AEv.onRecvEv c.lK]) := by
        simp [stepL, hlt, hph]
      rw [hstep]
      have hpp := h.phase_prog
      simp only [PhaseProg, hph] at hpp
      obtain ⟨i1, i2, h12, h1, h2⟩ := hpp
      have hi2 : i2 < tr.length := (List.getElem?_eq_some.mp h2).1
      refine
        { lK_le := h.lK_le
          lK_top := fun htop => absurd htop (Nat.ne_of_lt hlt)
          recv_count := ?_
          flag_order := h.flag_order.append_nonflag rfl
          phase_prog :=
            ⟨i1, i2, tr.length, h12, hi2, getElem?_append_l h1,
              getElem?_append_l h2, List.getElem?_concat_length _ _⟩
          flag_impl := fun hf => flagWitness_append (h.flag_impl hf) rfl
          clear_mem := ?_
          epoch_order := fun e he => clearThenSet_append (h.epoch_order e he)
          send_order := h.send_order.append_nonsend rfl
          m_join := ?_
          m_shut := ?_
          m_done := ?_
          exit_after := ?_ }
      · rw [List.countP_append]
        have hrc : tr.countP isRecvEv = c.lK + 1 := by
          simpa [numRecv, hph] using h.recv_count
        simp [isRecvEv, numRecv, hrc]
      · intro e he
        obtain ⟨i, hi⟩ := h.clear_mem e he
        exact ⟨i, getElem?_append_l hi⟩
      · intro hm
        rw [List.filter_append, h.m_join hm]
        rfl
      · intro i hi
        exact absurd (h.m_shut i hi).2.1 (Nat.ne_of_lt hlt)
      · intro hd
        exact absurd (h.m_done hd).1 (Nat.ne_of_lt hlt)
      · intro j dst p hj
        rcases getElem?_append_cases hj with ⟨_, hold⟩ | ⟨_, hnew⟩
        · exact (no_exit_of_lt h hlt hold).elim
        · obtain ⟨_, hx⟩ := singleton_getElem? hnew
          exact AEv.noConfusion hx
    | flagP =>
      have hstep : stepL S c =
          ({ c with hasNewUpdate := true, lK := c.lK + 1,
                    lPhase := LPhase.recvP },
           [AEv.flagEv c.lK]) := by
        simp [stepL, hlt, hph]
      rw [hstep]
      have hpp := h.phase_prog
      simp only [PhaseProg, hph] at hpp
      refine
        { lK_le := Nat.succ_le_of_lt hlt
          lK_top := fun _ => rfl
          recv_count := ?_
          flag_order := h.flag_order.append_flag hpp
          phase_prog := trivial
          flag_impl := ?_
          clear_mem := ?_
          epoch_order := fun e he => clearThenSet_append (h.epoch_order e he)
          send_order := h.send_order.append_nonsend rfl
          m_join := ?_
          m_shut := ?_
          m_done := ?_
          exit_after := ?_ }
      · rw [List.countP_append]
        have hrc : tr.countP isRecvEv = c.lK + 1 := by
          simpa [numRecv, hph] using h.recv_count
        simp [isRecvEv, numRecv, hrc]
      · intro _
        refine ⟨tr.length, c.lK, List.getElem?_concat_length _ _, ?_⟩
        intro i e hi
        rcases getElem?_append_cases hi with ⟨hil, _⟩ | ⟨_, hnew⟩
        · exact hil
        · obtain ⟨_, hx⟩ := singleton_getElem? hnew
          exact AEv.noConfusion hx
      · intro e he
        obtain ⟨i, hi⟩ := h.clear_mem e he
        exact ⟨i, getElem?_append_l hi⟩
      · intro hm
        rw [List.filter_append, h.m_join hm]
        rfl
      · intro i hi
        exact absurd (h.m_shut i hi).2.1 (Nat.ne_of_lt hlt)
      · intro hd
        exact absurd (h.m_done hd).1 (Nat.ne_of_lt hlt)
      · intro j dst p hj
        rcases getElem?_append_cases hj with ⟨_, hold⟩ | ⟨_, hnew⟩
        · exact (no_exit_of_lt h hlt hold).elim
        · obtain ⟨_, hx⟩ := singleton_getElem? hnew
          exact AEv.noConfusion hx
  · have hstep : stepL S c = (c, []) := by
      simp [stepL, hlt]
    rw [hstep, List.append_nil]
    exact h

/-- One main-thread step preserves the invariant. -/
theorem stepM_inv {σ Content Params : Type} (S : AsyncSys σ Content Params)
    {c : ACfg σ} {tr : List (AEv Params)} (h : AInv S c tr) :
    AInv S (stepM S c).1 (tr ++ (stepM S c).2) := by
  cases hmc : c.mPC with
  | joinListen =>
    by_cases hj : c.lK = S.totalUpdateTime
    · have hstep : stepM S c = ({ c with mPC := MPC.shuttingDown 0 }, []) := by
        simp [stepM, hmc, hj]
      rw [hstep, List.append_nil]
      refine
        { lK_le := h.lK_le
          lK_top := h.lK_top
          recv_count := h.recv_count
          flag_order := h.flag_order
          phase_prog := h.phase_prog
          flag_impl := h.flag_impl
          clear_mem := h.clear_mem
          epoch_order := h.epoch_order
          send_order := h.send_order
          m_join := ?_
          m_shut := ?_
          m_done := ?_
          exit_after := h.exit_after }
      · intro hm
        exact MPC.noConfusion hm
      · intro i hi
        have h0 : 0 = i := by
          injection hi
        subst h0
        refine ⟨Nat.zero_le _, hj, ?_⟩
        rw [h.m_join hmc]
        rfl
      · intro hd
        exact MPC.noConfusion hd
    · have hstep : stepM S c = (c, []) := by
        simp [stepM, hmc, hj]
      rw [hstep, List.append_nil]
      exact h
  | shuttingDown i =>
    obtain ⟨hle, hlkT, hfil⟩ := h.m_shut i hmc
    have hph : c.lPhase = LPhase.recvP := h.lK_top hlkT
    have hrc : tr.countP isRecvEv = S.totalUpdateTime := by
      simpa [numRecv, hph, hlkT] using h.recv_count
    by_cases hiN : i < S.handler.clientNumInTotal
    · have hstep : stepM S c =
          ({ c with mPC := MPC.shuttingDown (i + 1) },
           [AEv.exitEv (i + 1) (S.handler.serializeModel c.hstate)]) := by
        simp [stepM, hmc, hiN]
      rw [hstep]
      refine
        { lK_le := h.lK_le
          lK_top := h.lK_top
          recv_count := ?_
          flag_order := h.flag_order.append_nonflag rfl
          phase_prog := phaseProg_append h.phase_prog
          flag_impl := fun hf => flagWitness_append (h.flag_impl hf) rfl
          clear_mem := ?_
          epoch_order := fun e he => clearThenSet_append (h.epoch_order e he)
          send_order := h.send_order.append_nonsend rfl
          m_join := ?_
          m_shut := ?_
          m_done := ?_
          exit_after := ?_ }
      · rw [List.countP_append]
        simpa [isRecvEv, numRecv] using h.recv_count
      · intro e he
        obtain ⟨i', hi'⟩ := h.clear_mem e he
        exact ⟨i', getElem?_append_l hi'⟩
      · intro hm
        exact MPC.noConfusion hm
      · intro i' hi'
        have h0 : i + 1 = i' := by
          injection hi'
        subst h0
        refine ⟨by omega, hlkT, ?_⟩
        rw [List.filter_append, hfil, List.range_succ, List.map_append]
        rfl
      · intro hd
        exact MPC.noConfusion hd
      · intro j dst p hj
        rcases getElem?_append_cases hj with ⟨hjl, hold⟩ | ⟨hjl, hnew⟩
        · have := h.exit_after j dst p hold
          rwa [List.take_append_of_le_length (Nat.le_of_lt hjl)]
        · obtain ⟨hj0, hx⟩ := singleton_getElem? hnew
          have hjlen : j = tr.length := by omega
          subst hjlen
          cases hx
          refine ⟨?_, rfl⟩
          rw [List.take_append_of_le_length (Nat.le_refl _), List.take_length]
          exact hrc
    · have hstep : stepM S c = ({ c with mPC := MPC.mdone }, []) := by
        simp [stepM, hmc, hiN]
      rw [hstep, List.append_nil]
      have hiEq : i = S.handler.clientNumInTotal := by omega
      refine
        { lK_le := h.lK_le
          lK_top := h.lK_top
          recv_count := h.recv_count
          flag_order := h.flag_order
          phase_prog := h.phase_prog
          flag_impl := h.flag_impl
          clear_mem := h.clear_mem
          epoch_order := h.epoch_order
          send_order := h.send_order
          m_join := ?_
          m_shut := ?_
          m_done := ?_
          exit_after := h.exit_after }
      · intro hm
        exact MPC.noConfusion hm
      · intro i' hi'
        exact MPC.noConfusion hi'
      · intro _
        subst hiEq
        exact ⟨hlkT, hfil⟩
  | mdone =>
    have hstep : stepM S c = (c, []) := by
      simp [stepM, hmc]
    rw [hstep, List.append_nil]
    exact h

/-- Any thread step preserves the invariant. -/
theorem stepT_inv {σ Content Params : Type} (S : AsyncSys σ Content Params)
    {c : ACfg σ} {tr : List (AEv Params)} (h : AInv S c tr) (t : Tid) :
    AInv S (stepT S c t).1 (tr ++ (stepT S c t).2) := by
  cases t with
  | act => exact stepA_inv S h
  | lst => exact stepL_inv S h
  | mainT => exact stepM_inv S h

/-- Executing any schedule preserves the invariant. -/
theorem exec_inv {σ Content Params : Type} (S : AsyncSys σ Content Params) :
    ∀ (sched : List Tid) (c : ACfg σ) (tr : List (AEv Params)),
      AInv S c tr → AInv S (exec S c sched).1 (tr ++ (exec S c sched).2) := by
  intro sched
  induction sched with
  | nil =>
    intro c tr h
    simpa [exec] using h
  | cons t rest ih =>
    intro c tr h
    have h1 := stepT_inv S h t
    have h2 := ih (stepT S c t).1 (tr ++ (stepT S c t).2) h1
    simpa [exec, List.append_assoc] using h2

/-- The invariant holds for the full run from the initial
configuration. -/
theorem ainv_exec {σ Content Params : Type} (S : AsyncSys σ Content Params)
    (s0 : σ) (sched : List Tid) :
    AInv S (exec S (initACfg S s0) sched).1 (exec S (initACfg S s0) sched).2 := by
  have h := exec_inv S sched (initACfg S s0) [] (ainv_init S s0)
  simpa using h

/-- Receive-count bound for any reachable state: never more than
`totalUpdateTime` receives, and exactly that many when the listening
loop has finished. -/
theorem countP_recv_bound {σ Content Params : Type}
    {S : AsyncSys σ Content Params} {c : ACfg σ} {tr : List (AEv Params)}
    (h : AInv S c tr) :
    tr.countP isRecvEv ≤ S.totalUpdateTime ∧
    (c.lK = S.totalUpdateTime → tr.countP isRecvEv = S.totalUpdateTime) := by
  constructor
  · rw [h.recv_count]
    unfold numRecv
    by_cases hph : c.lPhase = LPhase.recvP
    · simp only [hph, if_pos rfl]
      simpa using h.lK_le
    · have hne : c.lK ≠ S.totalUpdateTime := fun he => hph (h.lK_top he)
      have := h.lK_le
      simp only [if_neg hph]
      omega
  · intro hT
    rw [h.recv_count]
    unfold numRecv
    rw [h.lK_top hT, if_pos rfl, hT]
    omega

/-- C1: along every schedule of the asynchronous coordinator, any
activation send of epoch `e + 1` is preceded by the epoch-`e` clear of
`has_new_update` followed by a later setting of that flag, and that
flag-set itself follows a `recv_package` receipt: activation for epoch
`e + 1` does not proceed before at least one update has been received
after epoch `e`'s sends. -/
theorem fedlab_C1 {σ Content Params : Type} (S : AsyncSys σ Content Params)
    (s0 : σ) (sched : List Tid) (j dst : Nat) (p : Params) (e : Nat)
    (hj : (exec S (initACfg S s0) sched).2[j]? = some (AEv.aSendEv dst p (e + 1))) :
    ∃ (i m k : Nat), i < m ∧ m < j ∧
      (exec S (initACfg S s0) sched).2[i]? = some (AEv.aClearEv e) ∧
      (exec S (initACfg S s0) sched).2[m]? = some (AEv.flagEv k) ∧
      ∃ i1 : Nat, i1 < m ∧
        (exec S (initACfg S s0) sched).2[i1]? =
          some (AEv.recvEv k (S.inp k).1 (S.inp k).2.1) := by
  have hinv := ainv_exec S s0 sched
  obtain ⟨i, m, k, him, hmj, hi, hm⟩ := hinv.send_order j dst p e hj
  obtain ⟨i1, i2, i3, h12, h23, h3m, h1, _, _⟩ := hinv.flag_order m k hm
  exact ⟨i, m, k, him, hmj, hi, hm, i1, by omega, h1⟩

/-- C6: along every schedule, each `flagEv k` (the listening duty
setting `has_new_update` in iteration `k`) is preceded, in order, by
that iteration's receive, its `model_update_time` stamp, and its
`on_receive` call: the flag is never set before the handler has
processed the update. -/
theorem fedlab_C6 {σ Content Params : Type} (S : AsyncSys σ Content Params)
    (s0 : σ) (sched : List Tid) (j k : Nat)
    (hj : (exec S (initACfg S s0) sched).2[j]? = some (AEv.flagEv k)) :
    ∃ (i1 i2 i3 : Nat), i1 < i2 ∧ i2 < i3 ∧ i3 < j ∧
      (exec S (initACfg S s0) sched).2[i1]? =
        some (AEv.recvEv k (S.inp k).1 (S.inp k).2.1) ∧
      (exec S (initACfg S s0) sched).2[i2]? = some (AEv.stampEv k) ∧
      (exec S (initACfg S s0) sched).2[i3]? = some (AEv.onRecvEv k) :=
  (ainv_exec S s0 sched).flag_order j k hj

/-- C4: for a coordinator built by `ServerAsyncTop.__init__`,
`total_update_time = global_activate_epoch * client_num_per_round`,
and along every schedule the listening duty performs at most that many
receives — exactly that many once its loop counter has reached the
bound, which is the loop's termination point. -/
theorem fedlab_C4 {σ Content Params : Type}
    (h : AsyncHandler σ Content Params) (addr : String × String)
    (backend : String) (inp : Nat → Nat × MessageCode × Content)
    (s0 : σ) (sched : List Tid) :
    (ServerAsyncTop.init h addr backend).totalUpdateTime =
      (ServerAsyncTop.init h addr backend).globalActivateEpoch *
        h.clientNumPerRound ∧
    (exec (ServerAsyncTop.mkSys (ServerAsyncTop.init h addr backend) inp)
        (initACfg (ServerAsyncTop.mkSys (ServerAsyncTop.init h addr backend) inp) s0)
        sched).2.countP isRecvEv ≤
      (ServerAsyncTop.init h addr backend).totalUpdateTime ∧
    ((exec (ServerAsyncTop.mkSys (ServerAsyncTop.init h addr backend) inp)
        (initACfg (ServerAsyncTop.mkSys (ServerAsyncTop.init h addr backend) inp) s0)
        sched).1.lK = (ServerAsyncTop.init h addr backend).totalUpdateTime →
      (exec (ServerAsyncTop.mkSys (ServerAsyncTop.init h addr backend) inp)
        (initACfg (ServerAsyncTop.mkSys (ServerAsyncTop.init h addr backend) inp) s0)
        sched).2.countP isRecvEv =
        (ServerAsyncTop.init h addr backend).totalUpdateTime) := by
  have hinv := ainv_exec (ServerAsyncTop.mkSys (ServerAsyncTop.init h addr backend) inp)
    s0 sched
  exact ⟨rfl, (countP_recv_bound hinv).1, (countP_recv_bound hinv).2⟩

/-- C5: along every schedule of the asynchronous coordinator, (1) when
the main thread has finished, the `Exit` sends of the trace are
exactly one package per rank `1..client_num_in_total`, in order, each
carrying the final serialized model; (2) every `Exit` send occurs only
after all `totalUpdateTime` receives (the run joins on the listening
duty before shutting down) and carries the final serialized model; and
(3) the main thread's step function is independent of the activation
thread's program counter — the run never joins on the activation
duty. -/
theorem fedlab_C5 {σ Content Params : Type} (S : AsyncSys σ Content Params)
    (s0 : σ) (sched : List Tid) :
    ((exec S (initACfg S s0) sched).1.mPC = MPC.mdone →
      (exec S (initACfg S s0) sched).2.filter isExitEvA =
        (List.range S.handler.clientNumInTotal).map
          (fun x => AEv.exitEv (x + 1)
            (S.handler.serializeModel (exec S (initACfg S s0) sched).1.hstate))) ∧
    (∀ (j dst : Nat) (p : Params),
      (exec S (initACfg S s0) sched).2[j]? = some (AEv.exitEv dst p) →
      ((exec S (initACfg S s0) sched).2.take j).countP isRecvEv =
          S.totalUpdateTime ∧
      p = S.handler.serializeModel (exec S (initACfg S s0) sched).1.hstate) ∧
    (∀ (c : ACfg σ) (a : APC),
      stepM S { c with aPC := a } =
        ({ (stepM S c).1 with aPC := a }, (stepM S c).2)) := by
  have hinv := ainv_exec S s0 sched
  refine ⟨fun hd => (hinv.m_done hd).2, hinv.exit_after, ?_⟩
  intro c a
  cases hm : c.mPC with
  | joinListen =>
    by_cases hk : c.lK = S.totalUpdateTime <;> simp [stepM, hm, hk]
  | shuttingDown i =>
    by_cases hik : i < S.handler.clientNumInTotal <;> simp [stepM, hm, hik]
  | mdone => simp [stepM, hm]

/-- Concrete asynchronous handler for witnesses: one client, models
are naturals, serialization is the identity, `on_receive` adds the
received content. -/
def demoAsyncHandler : AsyncHandler Nat Nat Nat :=
  { clientNumInTotal := 1
    clientNumPerRound := 1
    selectClients := fun _ => [1]
    serializeModel := fun s => s
    setModelUpdateTime := fun s _ => s
    onReceive := fun s _ _ content => s + content }

/-- Concrete environment: update `k` comes from rank 1 tagged
`ParameterUpdate` with content `k + 1`. -/
def demoInp : Nat → Nat × MessageCode × Nat :=
  fun k => (1, MessageCode.ParameterUpdate, k + 1)

def demoAsyncSys : AsyncSys Nat Nat Nat :=
  ServerAsyncTop.mkSys
    (ServerAsyncTop.init demoAsyncHandler ("127.0.0.1", "3002") "gloo") demoInp

/-- Witness for C1: a schedule whose trace has an epoch-1 activation
send at position 6. -/
theorem fedlab_C1_witness :
    (exec demoAsyncSys (initACfg demoAsyncSys 0)
      [Tid.act, Tid.act, Tid.act, Tid.lst, Tid.lst, Tid.lst, Tid.lst,
       Tid.act, Tid.act]).2[6]? = some (AEv.aSendEv 1 1 (0 + 1)) ∧
    (∃ (i m k : Nat), i < m ∧ m < 6 ∧
      (exec demoAsyncSys (initACfg demoAsyncSys 0)
        [Tid.act, Tid.act, Tid.act, Tid.lst, Tid.lst, Tid.lst, Tid.lst,
         Tid.act, Tid.act]).2[i]? = some (AEv.aClearEv 0) ∧
      (exec demoAsyncSys (initACfg demoAsyncSys 0)
        [Tid.act, Tid.act, Tid.act, Tid.lst, Tid.lst, Tid.lst, Tid.lst,
         Tid.act, Tid.act]).2[m]? = some (AEv.flagEv k) ∧
      ∃ i1 : Nat, i1 < m ∧
        (exec demoAsyncSys (initACfg demoAsyncSys 0)
          [Tid.act, Tid.act, Tid.act, Tid.lst, Tid.lst, Tid.lst, Tid.lst,
           Tid.act, Tid.act]).2[i1]? =
          some (AEv.recvEv k (demoAsyncSys.inp k).1 (demoAsyncSys.inp k).2.1)) :=
  ⟨by decide,
   fedlab_C1 demoAsyncSys 0
     [Tid.act, Tid.act, Tid.act, Tid.lst, Tid.lst, Tid.lst, Tid.lst,
      Tid.act, Tid.act] 6 1 1 0 (by decide)⟩

/-- Witness for C6: after one full listening iteration, the flag event
at position 3 is preceded by receive, stamp and `on_receive`. -/
theorem fedlab_C6_witness :
    (exec demoAsyncSys (initACfg demoAsyncSys 0)
      [Tid.lst, Tid.lst, Tid.lst, Tid.lst]).2[3]? = some (AEv.flagEv 0) ∧
    (∃ (i1 i2 i3 : Nat), i1 < i2 ∧ i2 < i3 ∧ i3 < 3 ∧
      (exec demoAsyncSys (initACfg demoAsyncSys 0)
        [Tid.lst, Tid.lst, Tid.lst, Tid.lst]).2[i1]? =
        some (AEv.recvEv 0 (demoAsyncSys.inp 0).1 (demoAsyncSys.inp 0).2.1) ∧
      (exec demoAsyncSys (initACfg demoAsyncSys 0)
        [Tid.lst, Tid.lst, Tid.lst, Tid.lst]).2[i2]? = some (AEv.stampEv 0) ∧
      (exec demoAsyncSys (initACfg demoAsyncSys 0)
        [Tid.lst, Tid.lst, Tid.lst, Tid.lst]).2[i3]? = some (AEv.onRecvEv 0)) :=
  ⟨by decide,
   fedlab_C6 demoAsyncSys 0 [Tid.lst, Tid.lst, Tid.lst, Tid.lst] 3 0 (by decide)⟩

/-- Witness for C4: a schedule that completes the listening loop;
exactly `total_update_time = 3` receives occur. -/
theorem fedlab_C4_witness :
    (exec demoAsyncSys (initACfg demoAsyncSys 0)
      [Tid.lst, Tid.lst, Tid.lst, Tid.lst, Tid.lst, Tid.lst, Tid.lst,
       Tid.lst, Tid.lst, Tid.lst, Tid.lst, Tid.lst]).1.lK =
      (ServerAsyncTop.init demoAsyncHandler ("127.0.0.1", "3002") "gloo").totalUpdateTime ∧
    (exec demoAsyncSys (initACfg demoAsyncSys 0)
      [Tid.lst, Tid.lst, Tid.lst, Tid.lst, Tid.lst, Tid.lst, Tid.lst,
       Tid.lst, Tid.lst, Tid.lst, Tid.lst, Tid.lst]).2.countP isRecvEv =
      (ServerAsyncTop.init demoAsyncHandler ("127.0.0.1", "3002") "gloo").totalUpdateTime :=
  ⟨by decide,
   (fedlab_C4 demoAsyncHandler ("127.0.0.1", "3002") "gloo" demoInp 0
     [Tid.lst, Tid.lst, Tid.lst, Tid.lst, Tid.lst, Tid.lst, Tid.lst,
      Tid.lst, Tid.lst, Tid.lst, Tid.lst, Tid.lst]).2.2 (by decide)⟩

/-- Witness for C5: a schedule that finishes the listening loop and
then the main thread; the single `Exit` package goes to rank 1 with
the final model, while the activation thread never even ran. -/
theorem fedlab_C5_witness :
    (exec demoAsyncSys (initACfg demoAsyncSys 0)
      [Tid.lst, Tid.lst, Tid.lst, Tid.lst, Tid.lst, Tid.lst, Tid.lst,
       Tid.lst, Tid.lst, Tid.lst, Tid.lst, Tid.lst,
       Tid.mainT, Tid.mainT, Tid.mainT]).1.mPC = MPC.mdone ∧
    (exec demoAsyncSys (initACfg demoAsyncSys 0)
      [Tid.lst, Tid.lst, Tid.lst, Tid.lst, Tid.lst, Tid.lst, Tid.lst,
       Tid.lst, Tid.lst, Tid.lst, Tid.lst, Tid.lst,
       Tid.mainT, Tid.mainT, Tid.mainT]).2.filter isExitEvA =
      (List.range demoAsyncSys.handler.clientNumInTotal).map
        (fun x => AEv.exitEv (x + 1)
          (demoAsyncSys.handler.serializeModel
            (exec demoAsyncSys (initACfg demoAsyncSys 0)
              [Tid.lst, Tid.lst, Tid.lst, Tid.lst, Tid.lst, Tid.lst, Tid.lst,
               Tid.lst, Tid.lst, Tid.lst, Tid.lst, Tid.lst,
               Tid.mainT, Tid.mainT, Tid.mainT]).1.hstate)) :=
  ⟨by decide,
   (fedlab_C5 demoAsyncSys 0
     [Tid.lst, Tid.lst, Tid.lst, Tid.lst, Tid.lst, Tid.lst, Tid.lst,
      Tid.lst, Tid.lst, Tid.lst, Tid.lst, Tid.lst,
      Tid.mainT, Tid.mainT, Tid.mainT]).1 (by decide)⟩

end FedLab
